import Mathlib

/-!
Verification of the rCore dynamic kernel tracing subsystem (kprobes,
breakpoint-slot allocator, eBPF tracepoint registry, eBPF program loader)
against its natural-language specification.

The Rust sources are shallowly embedded:
* `src/kernel/src/kprobes/arch/riscv/breakpoint.rs` — breakpoint slot
  allocator (`alloc_breakpoint` / `free_breakpoint` / `inject_breakpoints`);
* `src/kernel/src/kprobes/kprobes.rs` — kprobe registry
  (`register_kprobe` / `unregister_kprobe`);
* `src/kernel/src/bpf/tracepoints.rs` — tracepoint specifier parser and
  attach API (`parse_tracepoint` / `bpf_program_attach`);
* `src/kernel/src/bpf/program.rs` — eBPF object loader
  (`bpf_program_load_ex`).

Rust `BTreeMap`s are embedded as association lists (`alistLookup` /
`alistInsert` / `alistUpdate` / `alistErase`), `BTreeSet<usize>` as
`Finset ℕ` (`pop_first` pops the minimum, matching `Finset.min'`),
machine memory as a byte map `ℕ → ℕ`, and `panic!` / `unwrap` failures
as `Option.none`.
-/

namespace RCore

/-! ### Association lists: the embedding of Rust `BTreeMap<usize, V>`.

Only lookup/insert/in-place-update/remove and `len` are used by the
sources; iteration order never matters there, so a plain association
list with distinct keys is a faithful model. -/

def alistLookup {K V : Type} [DecidableEq K] : List (K × V) → K → Option V
  | [], _ => none
  | e :: rest, k => if e.1 = k then some e.2 else alistLookup rest k

/-- In-place value replacement behind `BTreeMap::get_mut`, and the write back
of a `get_mut` borrow: replace the value at the (unique) key. -/
def alistUpdate {K V : Type} [DecidableEq K] (m : List (K × V)) (k : K) (v : V) : List (K × V) :=
  m.map (fun e => if e.1 = k then (k, v) else e)

/-- `BTreeMap::insert`: overwrite the value when the key is present,
otherwise add the binding. -/
def alistInsert {K V : Type} [DecidableEq K] (m : List (K × V)) (k : K) (v : V) : List (K × V) :=
  if (alistLookup m k).isSome then alistUpdate m k v else (k, v) :: m

/-- `BTreeMap::remove`: drop the (unique) binding for the key. -/
def alistErase {K V : Type} [DecidableEq K] : List (K × V) → K → List (K × V)
  | [], _ => []
  | e :: rest, k => if e.1 = k then rest else e :: alistErase rest k

@[simp] theorem alistLookup_nil {K V : Type} [DecidableEq K] (k : K) :
    alistLookup ([] : List (K × V)) k = none := rfl

@[simp] theorem alistLookup_cons {K V : Type} [DecidableEq K] (e : K × V) (rest : List (K × V)) (k : K) :
    alistLookup (e :: rest) k = if e.1 = k then some e.2 else alistLookup rest k := rfl

@[simp] theorem alistUpdate_nil {K V : Type} [DecidableEq K] (k : K) (v : V) :
    alistUpdate ([] : List (K × V)) k v = [] := rfl

@[simp] theorem alistUpdate_cons {K V : Type} [DecidableEq K] (e : K × V) (rest : List (K × V)) (k : K) (v : V) :
    alistUpdate (e :: rest) k v = (if e.1 = k then (k, v) else e) :: alistUpdate rest k v := by
  simp [alistUpdate]

theorem alistLookup_update_self {K V : Type} [DecidableEq K] (m : List (K × V)) (k : K) (v : V)
    (h : (alistLookup m k).isSome) : alistLookup (alistUpdate m k v) k = some v := by
  induction m with
  | nil => simp [alistLookup] at h
  | cons e rest ih =>
      rw [alistUpdate_cons]
      by_cases hk : e.1 = k
      · rw [if_pos hk]
        show (if k = k then _ else _) = _
        rw [if_pos rfl]
      · rw [if_neg hk]
        rw [alistLookup_cons, if_neg hk] at h
        show (if e.1 = k then some e.2 else _) = _
        rw [if_neg hk, ih h]

theorem alistLookup_update_other {K V : Type} [DecidableEq K] (m : List (K × V)) (k k' : K) (v : V)
    (h : k' ≠ k) : alistLookup (alistUpdate m k v) k' = alistLookup m k' := by
  induction m with
  | nil => rfl
  | cons e rest ih =>
      rw [alistUpdate_cons]
      by_cases hk : e.1 = k
      · rw [if_pos hk]
        show (if k = k' then _ else _) = _
        rw [if_neg (Ne.symm h), ih]
        show _ = (if e.1 = k' then some e.2 else _)
        rw [hk, if_neg (Ne.symm h)]
      · rw [if_neg hk]
        show (if e.1 = k' then some e.2 else _) = _
        rw [ih]
        rfl

theorem alistLookup_insert_self {K V : Type} [DecidableEq K] (m : List (K × V)) (k : K) (v : V) :
    alistLookup (alistInsert m k v) k = some v := by
  unfold alistInsert
  by_cases h : (alistLookup m k).isSome
  · simp [h, alistLookup_update_self m k v h]
  · simp [h, alistLookup]

theorem alistLookup_insert_other {K V : Type} [DecidableEq K] (m : List (K × V)) (k k' : K) (v : V)
    (h : k' ≠ k) : alistLookup (alistInsert m k v) k' = alistLookup m k' := by
  unfold alistInsert
  by_cases hs : (alistLookup m k).isSome
  · simp [hs, alistLookup_update_other m k k' v h]
  · simp [hs, alistLookup, Ne.symm h]

@[simp] theorem alistUpdate_length {K V : Type} [DecidableEq K] (m : List (K × V)) (k : K) (v : V) :
    (alistUpdate m k v).length = m.length := by
  simp [alistUpdate]

theorem alistInsert_length_of_present {K V : Type} [DecidableEq K] (m : List (K × V)) (k : K) (v : V)
    (h : (alistLookup m k).isSome) : (alistInsert m k v).length = m.length := by
  simp [alistInsert, h]

theorem alistInsert_length_of_absent {K V : Type} [DecidableEq K] (m : List (K × V)) (k : K) (v : V)
    (h : alistLookup m k = none) : (alistInsert m k v).length = m.length + 1 := by
  simp [alistInsert, h]

/-! ### Breakpoint-slot allocator
(`src/kernel/src/kprobes/arch/riscv/breakpoint.rs`). -/

/-- `BREAKPOINT_LENGTH`: length in bytes of the RISC-V compressed
breakpoint (`C.EBREAK`). -/
def BREAKPOINT_LENGTH : ℕ := 2

/-- `PAGE_SIZE` (rcore_memory::PAGE_SIZE on riscv64). -/
def PAGE_SIZE : ℕ := 4096

/-- `BREAKPOINTS_PER_PAGE = PAGE_SIZE / BREAKPOINT_LENGTH`. -/
def BREAKPOINTS_PER_PAGE : ℕ := PAGE_SIZE / BREAKPOINT_LENGTH

/-- The page base of an address.  The source computes
`addr & !(PAGE_SIZE - 1)`; for the power-of-two `PAGE_SIZE` this mask
clears the low bits, i.e. rounds down to a multiple of `PAGE_SIZE`. -/
def pageBase (addr : ℕ) : ℕ := addr / PAGE_SIZE * PAGE_SIZE

/-- One byte of the little-endian encoding of `C_EBREAK = 0x9002` as
written by `inject_breakpoints` via `byte_copy`: even offsets hold the
low byte `0x02`, odd offsets the high byte `0x90`. -/
def ebreakByte (off : ℕ) : ℕ := if off % 2 = 0 then 0x02 else 0x90

/-- Write `count` consecutive 2-byte breakpoints starting at `addr`
(the loop body of `inject_breakpoints`). -/
def ebreakWrite (m : ℕ → ℕ) (addr count : ℕ) : ℕ → ℕ :=
  fun j => if addr ≤ j ∧ j < addr + BREAKPOINT_LENGTH * count then ebreakByte (j - addr) else m j

/-- `inject_breakpoints(addr, length)`.  `none` models the
`assert!(len % bp_len == 0)` panic. -/
def inject_breakpoints (m : ℕ → ℕ) (addr : ℕ) (length : Option ℕ) : Option (ℕ → ℕ) :=
  match length with
  | some len =>
      if len % BREAKPOINT_LENGTH = 0 then some (ebreakWrite m addr (len / BREAKPOINT_LENGTH))
      else none
  | none => some (ebreakWrite m addr 1)

/-- The global allocator state: `FREE_BREAKPOINTS` (a `BTreeSet<usize>`),
`BREAKPOINT_PAGES` (base → `BreakpointPage { nr_free }`), the number of
frames drawn from the external frame allocator so far (to index the
frame supply), and the machine's byte memory (slot pages live in the
same address space as kernel text). -/
structure BpState where
  free : Finset ℕ
  pages : List (ℕ × ℕ)
  frames : ℕ
  mem : ℕ → ℕ

/-- The initial (lazily initialised, empty) allocator state. -/
def bpEmpty : BpState := ⟨∅, [], 0, fun _ => 0⟩

/-- `alloc_breakpoint()`.  `sup` is the external frame allocator
composed with `phys_to_virt` (out of scope per the spec §1): `sup n` is
the virtual base of the `n`-th frame handed out.  `none` models the
`unwrap` panics (`pages.get_mut(&base).unwrap()`; `alloc_frame` is
modelled as always succeeding). -/
def alloc_breakpoint (sup : ℕ → ℕ) (s : BpState) : Option (ℕ × BpState) :=
  if h : s.free.Nonempty then
    -- pop_first: remove and return the least element of the BTreeSet
    let addr := s.free.min' h
    let base := pageBase addr
    match alistLookup s.pages base with
    | some n =>
        some (addr, { s with free := s.free.erase addr, pages := alistUpdate s.pages base (n - 1) })
    | none => none
  else
    let base := sup s.frames
    -- inject_breakpoints(base, Some(PAGE_SIZE)): pre-fill the page
    let mem' := ebreakWrite s.mem base (PAGE_SIZE / BREAKPOINT_LENGTH)
    -- for i in 1..BREAKPOINTS_PER_PAGE { free_bps.insert(base + i * BREAKPOINT_LENGTH) }
    let free' := (List.range' 1 (BREAKPOINTS_PER_PAGE - 1)).foldl
      (fun fs i => insert (base + i * BREAKPOINT_LENGTH) fs) s.free
    some (base,
      { free := free',
        pages := alistInsert s.pages base (BREAKPOINTS_PER_PAGE - 1),
        frames := s.frames + 1,
        mem := mem' })

/-- `free_breakpoint(addr)`.  `none` models the
`pages.get_mut(&base).unwrap()` panic when the owning page is not
recorded.  `dealloc_frame` is external and leaves the model state
untouched beyond dropping the page record. -/
def free_breakpoint (s : BpState) (addr : ℕ) : Option BpState :=
  let free1 := insert addr s.free
  let base := pageBase addr
  match alistLookup s.pages base with
  | none => none
  | some n =>
      let n1 := n + 1
      let pages1 := alistUpdate s.pages base n1
      if n1 = BREAKPOINTS_PER_PAGE ∧ 1 < pages1.length then
        some { s with
          free := (List.range BREAKPOINTS_PER_PAGE).foldl
            (fun fs i => fs.erase (base + i * BREAKPOINT_LENGTH)) free1,
          pages := alistErase pages1 base }
      else
        some { s with free := free1, pages := pages1 }

/-! ### Allocator traces.

`BpOp` is one client call; `runBp` executes a call sequence, threading
the allocator state together with a ghost set `outs` of currently
outstanding (allocated, not yet freed) slot addresses.  `validOps`
checks the environment assumptions of the sources along the run:
every `free_breakpoint` argument is an outstanding slot, and the
external frame allocator hands out page-aligned frames not currently
recorded in the page table (spec §1 assumes a correct external
`alloc_frame`). -/

inductive BpOp where
  | alloc : BpOp
  | free : ℕ → BpOp

def runBp (sup : ℕ → ℕ) : List BpOp → BpState → Finset ℕ → Option (BpState × Finset ℕ)
  | [], s, outs => some (s, outs)
  | .alloc :: rest, s, outs =>
      match alloc_breakpoint sup s with
      | some (a, s') => runBp sup rest s' (insert a outs)
      | none => none
  | .free a :: rest, s, outs =>
      match free_breakpoint s a with
      | some s' => runBp sup rest s' (outs.erase a)
      | none => none

def validOps (sup : ℕ → ℕ) : List BpOp → BpState → Finset ℕ → Bool
  | [], _, _ => true
  | .alloc :: rest, s, outs =>
      (decide s.free.Nonempty ||
        (decide (sup s.frames % PAGE_SIZE = 0) && decide (alistLookup s.pages (sup s.frames) = none))) &&
      match alloc_breakpoint sup s with
      | some (a, s') => validOps sup rest s' (insert a outs)
      | none => false
  | .free a :: rest, s, outs =>
      decide (a ∈ outs) &&
      match free_breakpoint s a with
      | some s' => validOps sup rest s' (outs.erase a)
      | none => false

/-- Whether a trace ever allocates a slot. -/
def hasAlloc : List BpOp → Bool
  | [] => false
  | .alloc :: _ => true
  | .free _ :: rest => hasAlloc rest

/-! ### KProbe engine (`src/kernel/src/kprobes/kprobes.rs`).

The pre/post handlers are opaque function values (`Arc<dyn Fn>`) that
the registry merely stores and never inspects; the embedding omits
them from `KProbe` since no claim mentions them.  The arch seam
(`get_insn_length`, `get_insn_type`, from the missing
`arch/riscv/mod.rs`) is passed in as parameters `il` / `it`. -/

inductive SingleStepType where
  | Unsupported : SingleStepType
  | Execute : SingleStepType
  | Emulate : SingleStepType
deriving DecidableEq

/-- The registry's view of one `KProbe` (handlers and `user_data`
omitted as opaque): `insn_buf` address, `insn_len`, `active_count`,
`emulate`. -/
structure KProbe where
  buf : ℕ
  len : ℕ
  active_count : ℕ
  emulate : Bool
deriving DecidableEq

/-- `KPROBES` and `ADDR_MAP` (both `BTreeMap<usize, _>`), plus the
breakpoint allocator state (which also carries the byte memory holding
kernel text and the slot pages). -/
structure KState where
  kprobes : List (ℕ × KProbe)
  addrMap : List (ℕ × ℕ)
  bp : BpState

def kEmpty : KState := ⟨[], [], bpEmpty⟩

/-- `byte_copy(dst, src, len)`: unchecked byte copy. -/
def byte_copy (m : ℕ → ℕ) (dst src len : ℕ) : ℕ → ℕ :=
  fun j => if dst ≤ j ∧ j < dst + len then m (src + (j - dst)) else m j

/-- Modelled from the spec: `InstructionBuffer::new()` (missing
`arch/riscv/mod.rs`) takes one slot from the breakpoint-slot allocator
(spec §3 "Instruction buffer ... one slot from the breakpoint-slot
allocator"); its address is the slot address. -/
def instructionBufferNew (sup : ℕ → ℕ) (s : BpState) : Option (ℕ × BpState) :=
  alloc_breakpoint sup s

/-- Modelled from the spec: `InstructionBuffer::add_breakpoint(offset)`
(missing `arch/riscv/mod.rs`) writes one breakpoint opcode at
`buf + offset` (spec §4.3: the slot contains
`[original_instruction | breakpoint]`). -/
def addBreakpoint (m : ℕ → ℕ) (buf offset : ℕ) : ℕ → ℕ :=
  ebreakWrite m (buf + offset) 1

/-- `register_kprobe(addr, pre_handler, post_handler)`.

`il addr` = `get_insn_length(addr)`, `it addr` = `get_insn_type(addr)`
(arch seam, spec §4.1); `sup` is the frame supply as in
`alloc_breakpoint`.  Follows the source order: duplicate check,
`Unsupported` check, `KProbe::new` (slot allocation + length decode),
`arm` (buffer copy-in, trailing breakpoint, `inject_breakpoints` at
`addr`, `invalidate_icache`), `ADDR_MAP.insert(buf + len, addr)`,
`KPROBES.insert(addr, probe)`.  Returns the Rust `bool` and the new
state; `none` models a panic in the allocator or in
`inject_breakpoints`' length assertion. -/
def register_kprobe (il : ℕ → ℕ) (it : ℕ → SingleStepType) (sup : ℕ → ℕ)
    (s : KState) (addr : ℕ) : Option (Bool × KState) :=
  if (alistLookup s.kprobes addr).isSome then some (false, s)
  else if it addr = .Unsupported then some (false, s)
  else
    match instructionBufferNew sup s.bp with
    | none => none
    | some (buf, bp1) =>
        let len := il addr
        let emulate := decide (it addr = .Emulate)
        let next_bp_addr := buf + len
        -- arm(): insn_buf.copy_in(0, addr, len); insn_buf.add_breakpoint(len);
        -- inject_breakpoints(addr, Some(len)); invalidate_icache()
        let mem1 := byte_copy bp1.mem buf addr len
        let mem2 := addBreakpoint mem1 buf len
        match inject_breakpoints mem2 addr (some len) with
        | none => none
        | some mem3 =>
            some (true,
              { kprobes := alistInsert s.kprobes addr ⟨buf, len, 0, emulate⟩,
                addrMap := alistInsert s.addrMap next_bp_addr addr,
                bp := { bp1 with mem := mem3 } })

/-- `unregister_kprobe(addr)`.  On success, `disarm()` copies the
original bytes back (`copy_out`) and the probe is removed from
`KPROBES`.  Note: no code path touches `ADDR_MAP` (it is a private
static of kprobes.rs, only inserted into by `register_kprobe`), and the
slot itself is only released by the `InstructionBuffer` drop glue in
the missing arch module, which cannot reach `ADDR_MAP` either; the
embedding leaves `bp.free`/`bp.pages` unchanged accordingly. -/
def unregister_kprobe (s : KState) (addr : ℕ) : Bool × KState :=
  match alistLookup s.kprobes addr with
  | some probe =>
      if probe.active_count > 0 then (false, s)
      else
        (true,
          { s with
            kprobes := alistErase s.kprobes addr,
            bp := { s.bp with mem := byte_copy s.bp.mem addr probe.buf probe.len } })
  | none => (false, s)

/-! ### Tracepoint specifier parser and attach API
(`src/kernel/src/bpf/tracepoints.rs`). -/

/-- The `SysError` kinds reached by the embedded functions. -/
inductive SysError where
  | EINVAL : SysError
  | ENOENT : SysError
  | EAGAIN : SysError
deriving DecidableEq

inductive TracepointType where
  | KProbe : TracepointType
  | KRetProbeEntry : TracepointType
  | KRetProbeExit : TracepointType
deriving DecidableEq

structure Tracepoint where
  tp_type : TracepointType
  token : ℕ
deriving DecidableEq

/-- Rust `u8::to_ascii_lowercase` on a character. -/
def asciiLower (c : Char) : Char :=
  if 'A' ≤ c ∧ c ≤ 'Z' then Char.ofNat (c.toNat + 32) else c

/-- Rust `str::eq_ignore_ascii_case`. -/
def eqIgnoreAsciiCase (a b : List Char) : Bool :=
  decide (a.map asciiLower = b.map asciiLower)

/-- `str::find(':')`: index of the first occurrence. -/
def findChar (c : Char) : List Char → Option ℕ
  | [] => none
  | x :: rest => if x = c then some 0 else (findChar c rest).map (· + 1)

/-- `parse_tracepoint(target)`: split at the first `':'`, match the
prefix case-insensitively against the three tracepoint kinds, return
the kind and the function-name remainder. -/
def parse_tracepoint (target : List Char) : Except SysError (TracepointType × List Char) :=
  match findChar ':' target with
  | none => .error .EINVAL
  | some pos =>
      let type_str := target.take pos
      let fn_name := target.drop (pos + 1)
      if eqIgnoreAsciiCase type_str "kprobe".toList then .ok (.KProbe, fn_name)
      else if eqIgnoreAsciiCase type_str "kretprobe@entry".toList then .ok (.KRetProbeEntry, fn_name)
      else if eqIgnoreAsciiCase type_str "kretprobe@exit".toList then .ok (.KRetProbeExit, fn_name)
      else .error .EINVAL

/-- An entry of the `BPF_OBJECTS` table (the table itself lives in the
missing `bpf/mod.rs`; modelled from the spec's object table).  A
`Program` holds the identity of the shared `Arc<BpfProgram>`: two
entries are `Arc::ptr_eq` exactly when they carry the same id. -/
inductive BpfObject where
  | Program : ℕ → BpfObject
  | NonProgram : BpfObject
deriving DecidableEq

/-- State touched by `bpf_program_attach`: the object table, the
`ATTACHED_PROGS` map (tracepoint → ordered list of shared program
references), and ghost logs of the (successful) underlying
`register_kprobe` / `register_kretprobe` calls, recording the probed
address of each. -/
structure AttachState where
  objects : List (ℕ × BpfObject)
  attached : List (Tracepoint × List ℕ)
  kprobeLog : List ℕ
  kretprobeLog : List ℕ
deriving DecidableEq

/-- The `dual_tp` computation of `bpf_program_attach`: the sibling
kretprobe tracepoint for the same address. -/
def dualTp (tp_type : TracepointType) (addr : ℕ) : Tracepoint :=
  if tp_type = .KRetProbeEntry then ⟨.KRetProbeExit, addr⟩ else ⟨.KRetProbeEntry, addr⟩

/-- `bpf_program_attach(target, prog_fd)`.

`resolve` is the module manager's symbol resolution (external, spec
§1), and `kOk` / `krOk` tell whether the underlying
`register_kprobe` / `register_kretprobe` succeeds at an address
(`kretprobes.rs` is outside the provided sources; registration is
modelled from the spec as an oracle plus the ghost log).  The returned
state equals the input state whenever an error is returned (the source
returns before mutating `ATTACHED_PROGS`). -/
def bpf_program_attach (resolve : List Char → Option ℕ) (kOk krOk : ℕ → Bool)
    (s : AttachState) (target : List Char) (prog_fd : ℕ) :
    Except SysError ℕ × AttachState :=
  match alistLookup s.objects prog_fd with
  | some (.Program program) =>
      (match parse_tracepoint target with
       | .error e => (.error e, s)
       | .ok (tp_type, fn_name) =>
           match resolve fn_name with
           | none => (.error .ENOENT, s)
           | some addr =>
               let tracepoint : Tracepoint := ⟨tp_type, addr⟩
               match alistLookup s.attached tracepoint with
               | some programs =>
                   if program ∈ programs then (.error .EAGAIN, s)
                   else (.ok 0,
                     { s with attached := alistUpdate s.attached tracepoint (programs ++ [program]) })
               | none =>
                   match tp_type with
                   | .KProbe =>
                       if kOk addr then
                         (.ok 0,
                           { s with
                             attached := alistInsert s.attached tracepoint [program],
                             kprobeLog := s.kprobeLog ++ [addr] })
                       else (.error .EINVAL, s)
                   | _ =>
                       if krOk addr then
                         (.ok 0,
                           { s with
                             attached := alistInsert (alistInsert s.attached tracepoint [program])
                               (dualTp tp_type addr) [],
                             kretprobeLog := s.kretprobeLog ++ [addr] })
                       else (.error .EINVAL, s))
  | _ => (.error .ENOENT, s)

/-! ### eBPF program loader (`src/kernel/src/bpf/program.rs`).

The `xmas_elf` crate is external; the object file is embedded
post-parse as an abstract section list (machine type, named sections
with symbol-table / relocation / raw data).  The JIT backend
(`ebpf2rv`, external per spec §1) and `bpf_allocate_fd` /
`bpf_object_create_program` (missing `bpf/mod.rs`) are modelled from
the spec as always producing a program under the supplied fresh
descriptor.  The in-place relocation writes patch the program bytes,
which no claim inspects; the error paths of the relocation walk are
kept. -/

/-- `R_BPF_64_64`: the eBPF map-reference (LD_IMM64) relocation type. -/
def R_BPF_64_64 : ℕ := 1

structure RelEntry where
  offset : ℕ
  symIdx : ℕ
  relType : ℕ
deriving DecidableEq

inductive SectionData where
  /-- `SectionData::SymbolTable64`: per-symbol `get_name` results
  (`none` when the name lookup fails). -/
  | symbolTable64 : List (Option (List Char)) → SectionData
  /-- A relocation section (`ShType::Rel` with `SectionData::Rel64`). -/
  | rel64 : List RelEntry → SectionData
  /-- Any other section data, e.g. program bytes (`raw_data`). -/
  | raw : List ℕ → SectionData
deriving DecidableEq

structure ElfSection where
  name : List Char
  data : SectionData
deriving DecidableEq

inductive ElfMachine where
  | BPF : ElfMachine
  | Other : ℕ → ElfMachine
deriving DecidableEq

structure ElfFile where
  machine : ElfMachine
  sections : List ElfSection
deriving DecidableEq

/-- `ElfFile::find_section_by_name`. -/
def findSectionByName (elf : ElfFile) (name : List Char) : Option ElfSection :=
  elf.sections.find? (fun sec => sec.name = name)

/-- The doubly nested symbol walk: for every symbol (by index) whose
name equals some supplied map binding's name, `BTreeMap::insert`
`(sym_idx → base + map_idx * size_of::<u32>())`.  Later bindings with
the same name overwrite the same `sym_idx` key. -/
def buildMapSymbols (tableBase : ℕ) (syms : List (Option (List Char)))
    (map_info : List (List Char × ℕ)) : List (ℕ × ℕ) :=
  (syms.enum.foldl (fun acc sym =>
    match sym.2 with
    | none => acc
    | some name =>
        map_info.enum.foldl (fun acc2 mf =>
          if mf.2.1 = name then alistInsert acc2 sym.1 (tableBase + mf.1 * 4) else acc2) acc) [])

/-- The relocation walk of `bpf_program_load_ex`: for each `Rel64`
section, resolve the target section from the name suffix (`ENOENT` if
absent); entries whose symbol is a recognised map symbol and whose
type is `R_BPF_64_64` patch the target bytes in place (a memory write
to the program buffer, not observable by any claim); all other
entries are skipped. -/
def relocateMaps (elf : ElfFile) (_mapSymbols : List (ℕ × ℕ)) : Except SysError Unit :=
  elf.sections.foldl (fun acc sec =>
    match acc with
    | .error e => .error e
    | .ok _ =>
        match sec.data with
        | .rel64 _ =>
            match findSectionByName elf (sec.name.drop 4) with
            | none => .error .ENOENT
            | some _ => .ok ()
        | _ => .ok ()) (.ok ())

/-- `bpf_program_load_ex(prog, map_info)` after ELF parsing.
`tableBase` is the runtime address of the owned `map_fd_table`
vector; `freshFd` the descriptor from `bpf_allocate_fd`. -/
def bpf_program_load_ex (tableBase freshFd : ℕ) (elf : ElfFile)
    (map_info : List (List Char × ℕ)) : Except SysError ℕ :=
  match elf.machine with
  | .Other _ => .error .EINVAL
  | .BPF =>
      match findSectionByName elf ".symtab".toList with
      | none => .error .ENOENT
      | some symtab =>
          let mapSymbols :=
            match symtab.data with
            | .symbolTable64 syms => buildMapSymbols tableBase syms map_info
            | _ => []
          if mapSymbols.length ≠ map_info.length then .error .ENOENT
          else
            match relocateMaps elf mapSymbols with
            | .error e => .error e
            | .ok _ =>
                match findSectionByName elf ".text".toList with
                | none => .error .ENOENT
                | some _ => .ok freshFd

/-! ### Concrete instantiations used by witnesses and counterexamples. -/

/-- Arch seam instance: every instruction decodes to length 2 (the
compressed-instruction architecture of the provided `breakpoint.rs`). -/
def ilC : ℕ → ℕ := fun _ => 2

/-- Arch seam instance: every instruction is classified `Execute`. -/
def itC : ℕ → SingleStepType := fun _ => .Execute

/-- Frame supply instance: the `n`-th fresh frame sits at virtual base
`(n + 1) * PAGE_SIZE`. -/
def supC : ℕ → ℕ := fun n => (n + 1) * PAGE_SIZE

/-- State after `register_kprobe(256)` from the pristine state under
`ilC`/`itC`/`supC` (the probe's slot is `4096`, its trailing
breakpoint `4098`). -/
def kS1 : KState := ((register_kprobe ilC itC supC kEmpty 256).getD (false, kEmpty)).2

/-- A tiny allocator state: one recorded page at `4096` with no free
slots. -/
def bpW : BpState := ⟨∅, [(4096, 0)], 1, fun _ => 0⟩

/-! ### C10 — `free_breakpoint`'s implicit precondition. -/

/-- C10: `free_breakpoint(addr)` implicitly requires the page
containing `addr` to be recorded in `BREAKPOINT_PAGES`: when it is,
the `get_mut(&base).unwrap()` lookup succeeds and the call completes;
when it is not, the unwrap panics (modelled as `none`). -/
theorem c10_free_breakpoint_page_lookup (s : BpState) (addr : ℕ) :
    ((alistLookup s.pages (pageBase addr)).isSome → (free_breakpoint s addr).isSome) ∧
    (alistLookup s.pages (pageBase addr) = none → free_breakpoint s addr = none) := by
  constructor
  · intro h
    cases hl : alistLookup s.pages (pageBase addr) with
    | none => rw [hl] at h; simp at h
    | some n =>
        simp only [free_breakpoint, hl]
        split <;> rfl
  · intro h
    simp only [free_breakpoint, h]

/-- Witness for C10 at concrete inputs: the page of slot `4098` is
recorded in `bpW`, so freeing completes; in the pristine state no page
is recorded and freeing panics. -/
theorem c10_free_breakpoint_page_lookup_witness :
    (free_breakpoint bpW 4098).isSome = true ∧ free_breakpoint bpEmpty 4098 = none :=
  ⟨(c10_free_breakpoint_page_lookup bpW 4098).1 (by decide),
   (c10_free_breakpoint_page_lookup bpEmpty 4098).2 (by decide)⟩

/-! ### C9 — `unregister_kprobe` success condition. -/

/-- C9: `unregister_kprobe(addr)` succeeds iff a probe is registered at
`addr` with `active_count == 0`; on failure the whole state (registry
included) is returned unchanged, so a registered probe stays armed. -/
theorem c9_unregister_kprobe (s : KState) (addr : ℕ) :
    ((unregister_kprobe s addr).1 = true ↔
      ∃ p, alistLookup s.kprobes addr = some p ∧ p.active_count = 0) ∧
    ((unregister_kprobe s addr).1 = false → (unregister_kprobe s addr).2 = s) := by
  cases hl : alistLookup s.kprobes addr with
  | none =>
      refine ⟨⟨fun h => ?_, fun h => ?_⟩, fun _ => ?_⟩
      · simp [unregister_kprobe, hl] at h
      · rcases h with ⟨p, hp, -⟩
        simp at hp
      · simp [unregister_kprobe, hl]
  | some probe =>
      by_cases ha : probe.active_count > 0
      · refine ⟨⟨fun h => ?_, fun h => ?_⟩, fun _ => ?_⟩
        · simp [unregister_kprobe, hl, ha] at h
        · rcases h with ⟨p, hp, hz⟩
          injection hp with hpp
          subst hpp
          exact absurd hz (by omega)
        · simp [unregister_kprobe, hl, ha]
      · refine ⟨⟨fun _ => ⟨probe, rfl, by omega⟩, fun _ => ?_⟩, fun h => ?_⟩
        · simp [unregister_kprobe, hl, ha]
        · simp [unregister_kprobe, hl, ha] at h

/-- Witness for C9: in `kS1` the probe at `256` is registered with
`active_count = 0`, so unregistration succeeds; in the empty registry
it fails and the state is unchanged. -/
theorem c9_unregister_kprobe_witness :
    (unregister_kprobe kS1 256).1 = true ∧ (unregister_kprobe kEmpty 256).2 = kEmpty :=
  ⟨(c9_unregister_kprobe kS1 256).1.mpr ⟨⟨4096, 2, 0, false⟩, rfl, rfl⟩,
   (c9_unregister_kprobe kEmpty 256).2 rfl⟩

/-! ### C2 — `register_kprobe` success condition and duplicate
registration. -/

/-- C2: when `register_kprobe(addr)` returns (rather than panicking in
the allocator), it succeeds iff no probe is registered at `addr` and
the instruction there is not classified `Unsupported`; and whenever a
probe is already registered at `addr` it returns `false` with the
entire state — registry, `ADDR_MAP`, kernel text — unchanged (so a
second registration at the same address leaves everything as after the
first). -/
theorem c2_register_kprobe (il : ℕ → ℕ) (it : ℕ → SingleStepType) (sup : ℕ → ℕ)
    (s : KState) (addr : ℕ) (r : Bool) (s' : KState)
    (h : register_kprobe il it sup s addr = some (r, s')) :
    (r = true ↔ alistLookup s.kprobes addr = none ∧ it addr ≠ .Unsupported) ∧
    ((alistLookup s.kprobes addr).isSome → r = false ∧ s' = s) := by
  unfold register_kprobe at h
  split at h
  next hdup =>
    simp only [Option.some.injEq, Prod.mk.injEq] at h
    obtain ⟨hr, hs⟩ := h
    subst hr
    subst hs
    refine ⟨⟨fun hc => by simp at hc, fun hc => ?_⟩, fun _ => ⟨rfl, rfl⟩⟩
    rw [hc.1] at hdup
    simp at hdup
  next hdup =>
    have hnone : alistLookup s.kprobes addr = none := by
      cases hl : alistLookup s.kprobes addr with
      | none => rfl
      | some p => rw [hl] at hdup; simp at hdup
    split at h
    next hty =>
      simp only [Option.some.injEq, Prod.mk.injEq] at h
      obtain ⟨hr, hs⟩ := h
      subst hr
      subst hs
      exact ⟨⟨fun hc => by simp at hc, fun hc => absurd hty hc.2⟩,
        fun hs2 => absurd hs2 hdup⟩
    next hty =>
      refine ⟨⟨fun _ => ⟨hnone, hty⟩, fun _ => ?_⟩, fun hs2 => absurd hs2 hdup⟩
      split at h
      next => simp at h
      next buf bp1 hb =>
        dsimp only at h
        split at h
        next => simp at h
        next mem3 hinj =>
          simp only [Option.some.injEq, Prod.mk.injEq] at h
          exact h.1.symm

/-- Witness for C2: registering at `256` a second time (on `kS1`, the
state after the first registration) fails and returns the state
unchanged. -/
theorem c2_register_kprobe_witness :
    register_kprobe ilC itC supC kS1 256 = some (false, kS1) ∧
    (false = true ↔ alistLookup kS1.kprobes 256 = none ∧ itC 256 ≠ .Unsupported) ∧
    ((alistLookup kS1.kprobes 256).isSome → false = false ∧ kS1 = kS1) :=
  ⟨rfl, c2_register_kprobe ilC itC supC kS1 256 false kS1 rfl⟩

/-! ### C1 — `ADDR_MAP` maintenance (code bug).

`register_kprobe` does insert `(insn_buf + insn_len) → addr` into
`ADDR_MAP`, but no code path ever removes an `ADDR_MAP` entry:
`unregister_kprobe` only disarms and drops the `KPROBES` binding
(`ADDR_MAP` is a private static of `kprobes.rs`, unreachable from the
arch drop glue).  The stale entry contradicts the spec's disarm step
and the `map.get_mut(orig_addr).unwrap()` in `kprobe_trap_handler`,
which assumes every `ADDR_MAP` entry points at a live probe. -/

/-- C1: evaluation at the failing input.  From the pristine state,
`register_kprobe(256)` arms a probe with buffer `4096` and length `2`
and inserts `ADDR_MAP[4098] = 256`; `unregister_kprobe(256)` then
succeeds — yet `ADDR_MAP[4098]` still maps to `256` afterwards,
contrary to the claim that a successful unregister removes the entry. -/
theorem c1_addr_map_entry_not_removed :
    register_kprobe ilC itC supC kEmpty 256 = some (true, kS1) ∧
    alistLookup kS1.addrMap (4096 + 2) = some 256 ∧
    (unregister_kprobe kS1 256).1 = true ∧
    alistLookup (unregister_kprobe kS1 256).2.addrMap (4096 + 2) = some 256 :=
  ⟨rfl, rfl, rfl, rfl⟩

/-! ### C8 — tracepoint specifier grammar. -/

/-- A specifier is malformed when it has no colon, or when the prefix
before the first colon matches none of the three kinds
(case-insensitively). -/
def specifierMalformed (t : List Char) : Bool :=
  match findChar ':' t with
  | none => true
  | some pos =>
      !(eqIgnoreAsciiCase (t.take pos) "kprobe".toList ||
        eqIgnoreAsciiCase (t.take pos) "kretprobe@entry".toList ||
        eqIgnoreAsciiCase (t.take pos) "kretprobe@exit".toList)

/-- C8: `"KPROBE:foo"`, `"kretprobe@Entry:foo"` and
`"kretprobe@exit:foo"` all parse successfully to the matching kind with
symbol `"foo"`, and every specifier without a colon, or whose prefix
before the first colon is none of the three kinds, parses to
`EINVAL`. -/
theorem c8_parse_tracepoint :
    parse_tracepoint "KPROBE:foo".toList = .ok (.KProbe, "foo".toList) ∧
    parse_tracepoint "kretprobe@Entry:foo".toList = .ok (.KRetProbeEntry, "foo".toList) ∧
    parse_tracepoint "kretprobe@exit:foo".toList = .ok (.KRetProbeExit, "foo".toList) ∧
    ∀ t : List Char, specifierMalformed t = true → parse_tracepoint t = .error .EINVAL := by
  refine ⟨rfl, rfl, rfl, fun t ht => ?_⟩
  cases hf : findChar ':' t with
  | none => simp only [parse_tracepoint, hf]
  | some pos =>
      simp only [specifierMalformed, hf, Bool.not_eq_true', Bool.or_eq_false_iff] at ht
      obtain ⟨⟨h1, h2⟩, h3⟩ := ht
      simp only [parse_tracepoint, hf, h1, h2, h3, Bool.false_eq_true, if_false]

/-- Witness for C8's universal part at concrete inputs: a wrong kind
prefix and a colon-free string are both rejected with `EINVAL`. -/
theorem c8_parse_tracepoint_witness :
    parse_tracepoint "uprobe:foo".toList = .error .EINVAL ∧
    parse_tracepoint "kprobefoo".toList = .error .EINVAL :=
  ⟨c8_parse_tracepoint.2.2.2 "uprobe:foo".toList (by decide),
   c8_parse_tracepoint.2.2.2 "kprobefoo".toList (by decide)⟩

/-! ### Shape lemmas for `bpf_program_attach`. -/

section AttachLemmas

variable (resolve : List Char → Option ℕ) (kOk krOk : ℕ → Bool)
variable (s : AttachState) (target : List Char) (fd program : ℕ)
variable (ty : TracepointType) (name : List Char) (addr : ℕ)

/-- Duplicate attach: the program is already in the tracepoint's list,
so the call returns `EAGAIN` without touching the state. -/
theorem attach_duplicate (progs : List ℕ)
    (hobj : alistLookup s.objects fd = some (.Program program))
    (hparse : parse_tracepoint target = .ok (ty, name))
    (hres : resolve name = some addr)
    (hatt : alistLookup s.attached ⟨ty, addr⟩ = some progs)
    (hmem : program ∈ progs) :
    bpf_program_attach resolve kOk krOk s target fd = (.error .EAGAIN, s) := by
  simp only [bpf_program_attach, hobj, hparse, hres, hatt, hmem, if_pos]

/-- Attach to a tracepoint that already has a list not containing the
program: the program is appended; no probe is registered. -/
theorem attach_append (progs : List ℕ)
    (hobj : alistLookup s.objects fd = some (.Program program))
    (hparse : parse_tracepoint target = .ok (ty, name))
    (hres : resolve name = some addr)
    (hatt : alistLookup s.attached ⟨ty, addr⟩ = some progs)
    (hmem : program ∉ progs) :
    bpf_program_attach resolve kOk krOk s target fd =
      (.ok 0, { s with attached := alistUpdate s.attached ⟨ty, addr⟩ (progs ++ [program]) }) := by
  simp only [bpf_program_attach, hobj, hparse, hres, hatt, hmem, if_neg, if_false]

/-- First attach to a fresh kprobe tracepoint: registers the kprobe and
creates the singleton list. -/
theorem attach_fresh_kprobe
    (hobj : alistLookup s.objects fd = some (.Program program))
    (hparse : parse_tracepoint target = .ok (.KProbe, name))
    (hres : resolve name = some addr)
    (hatt : alistLookup s.attached ⟨.KProbe, addr⟩ = none)
    (hk : kOk addr = true) :
    bpf_program_attach resolve kOk krOk s target fd =
      (.ok 0, { s with
        attached := alistInsert s.attached ⟨.KProbe, addr⟩ [program],
        kprobeLog := s.kprobeLog ++ [addr] }) := by
  simp only [bpf_program_attach, hobj, hparse, hres, hatt, hk, if_true]

/-- First attach to a fresh kretprobe tracepoint (either kind):
registers the kretprobe once and creates both the requested key and
its sibling key (the latter with an empty list). -/
theorem attach_fresh_kret
    (hobj : alistLookup s.objects fd = some (.Program program))
    (hparse : parse_tracepoint target = .ok (ty, name))
    (hty : ty ≠ .KProbe)
    (hres : resolve name = some addr)
    (hatt : alistLookup s.attached ⟨ty, addr⟩ = none)
    (hk : krOk addr = true) :
    bpf_program_attach resolve kOk krOk s target fd =
      (.ok 0, { s with
        attached := alistInsert (alistInsert s.attached ⟨ty, addr⟩ [program]) (dualTp ty addr) [],
        kretprobeLog := s.kretprobeLog ++ [addr] }) := by
  cases ty with
  | KProbe => exact absurd rfl hty
  | KRetProbeEntry => simp only [bpf_program_attach, hobj, hparse, hres, hatt, hk, if_true]
  | KRetProbeExit => simp only [bpf_program_attach, hobj, hparse, hres, hatt, hk, if_true]

end AttachLemmas

/-! ### C5 — duplicate attach and attach to two tracepoints. -/

/-- C5: (a) attaching a program to a tracepoint whose list already
contains it (pointer identity) returns `EAGAIN` and leaves the state
— attach map included — unchanged; (b) attaching the same program to
two distinct, not yet attached tracepoints succeeds both times and
afterwards both tracepoints' lists contain the program. -/
theorem c5_attach_duplicate_and_two_tracepoints :
    (∀ (resolve : List Char → Option ℕ) (kOk krOk : ℕ → Bool) (s : AttachState)
       (target : List Char) (fd program : ℕ) (ty : TracepointType)
       (name : List Char) (addr : ℕ) (progs : List ℕ),
       alistLookup s.objects fd = some (.Program program) →
       parse_tracepoint target = .ok (ty, name) →
       resolve name = some addr →
       alistLookup s.attached ⟨ty, addr⟩ = some progs →
       program ∈ progs →
       bpf_program_attach resolve kOk krOk s target fd = (.error .EAGAIN, s)) ∧
    (∀ (resolve : List Char → Option ℕ) (kOk krOk : ℕ → Bool) (s : AttachState)
       (t1 t2 : List Char) (fd program : ℕ) (ty1 ty2 : TracepointType)
       (n1 n2 : List Char) (a1 a2 : ℕ),
       alistLookup s.objects fd = some (.Program program) →
       parse_tracepoint t1 = .ok (ty1, n1) →
       parse_tracepoint t2 = .ok (ty2, n2) →
       resolve n1 = some a1 →
       resolve n2 = some a2 →
       (⟨ty1, a1⟩ : Tracepoint) ≠ ⟨ty2, a2⟩ →
       alistLookup s.attached ⟨ty1, a1⟩ = none →
       alistLookup s.attached ⟨ty2, a2⟩ = none →
       (∀ a, kOk a = true) → (∀ a, krOk a = true) →
       ∃ s1 s2,
         bpf_program_attach resolve kOk krOk s t1 fd = (.ok 0, s1) ∧
         bpf_program_attach resolve kOk krOk s1 t2 fd = (.ok 0, s2) ∧
         program ∈ (alistLookup s2.attached ⟨ty1, a1⟩).getD [] ∧
         program ∈ (alistLookup s2.attached ⟨ty2, a2⟩).getD []) := by
  constructor
  · intro resolve kOk krOk s target fd program ty name addr progs hobj hparse hres hatt hmem
    exact attach_duplicate resolve kOk krOk s target fd program ty name addr progs
      hobj hparse hres hatt hmem
  · intro resolve kOk krOk s t1 t2 fd program ty1 ty2 n1 n2 a1 a2
      hobj hp1 hp2 hr1 hr2 hne hf1 hf2 hkOk hkrOk
    by_cases hty1 : ty1 = .KProbe
    · subst hty1
      -- first attach: fresh kprobe
      have h1 := attach_fresh_kprobe resolve kOk krOk s t1 fd program n1 a1
        hobj hp1 hr1 hf1 (hkOk a1)
      set s1 : AttachState :=
        { s with attached := alistInsert s.attached ⟨.KProbe, a1⟩ [program],
                 kprobeLog := s.kprobeLog ++ [a1] } with hs1
      have hobj1 : alistLookup s1.objects fd = some (.Program program) := hobj
      have hf2' : alistLookup s1.attached ⟨ty2, a2⟩ = none := by
        rw [hs1]
        show alistLookup (alistInsert s.attached ⟨.KProbe, a1⟩ [program]) ⟨ty2, a2⟩ = none
        rw [alistLookup_insert_other _ _ _ _ (Ne.symm hne), hf2]
      by_cases hty2 : ty2 = .KProbe
      · subst hty2
        have h2 := attach_fresh_kprobe resolve kOk krOk s1 t2 fd program n2 a2
          hobj1 hp2 hr2 hf2' (hkOk a2)
        refine ⟨_, _, h1, h2, ?_, ?_⟩
        · rw [show ({ s1 with attached := alistInsert s1.attached ⟨TracepointType.KProbe, a2⟩ [program], kprobeLog := s1.kprobeLog ++ [a2] } : AttachState).attached = alistInsert s1.attached ⟨.KProbe, a2⟩ [program] from rfl,
            alistLookup_insert_other _ _ _ _ hne]
          rw [hs1]
          show program ∈ (alistLookup (alistInsert s.attached ⟨.KProbe, a1⟩ [program]) ⟨.KProbe, a1⟩).getD []
          rw [alistLookup_insert_self]
          simp
        · rw [show ({ s1 with attached := alistInsert s1.attached ⟨TracepointType.KProbe, a2⟩ [program], kprobeLog := s1.kprobeLog ++ [a2] } : AttachState).attached = alistInsert s1.attached ⟨.KProbe, a2⟩ [program] from rfl,
            alistLookup_insert_self]
          simp
      · have h2 := attach_fresh_kret resolve kOk krOk s1 t2 fd program ty2 n2 a2
          hobj1 hp2 hty2 hr2 hf2' (hkrOk a2)
        refine ⟨_, _, h1, h2, ?_, ?_⟩
        · show program ∈ (alistLookup (alistInsert (alistInsert s1.attached ⟨ty2, a2⟩ [program]) (dualTp ty2 a2) []) ⟨.KProbe, a1⟩).getD []
          have hdne : (⟨.KProbe, a1⟩ : Tracepoint) ≠ dualTp ty2 a2 := by
            unfold dualTp
            split <;> simp
          rw [alistLookup_insert_other _ _ _ _ hdne,
            alistLookup_insert_other _ _ _ _ hne]
          rw [hs1]
          show program ∈ (alistLookup (alistInsert s.attached ⟨.KProbe, a1⟩ [program]) ⟨.KProbe, a1⟩).getD []
          rw [alistLookup_insert_self]
          simp
        · show program ∈ (alistLookup (alistInsert (alistInsert s1.attached ⟨ty2, a2⟩ [program]) (dualTp ty2 a2) []) ⟨ty2, a2⟩).getD []
          have hdne : (⟨ty2, a2⟩ : Tracepoint) ≠ dualTp ty2 a2 := by
            unfold dualTp
            cases ty2 <;> simp_all
          rw [alistLookup_insert_other _ _ _ _ hdne, alistLookup_insert_self]
          simp
    · -- first attach: fresh kretprobe
      have h1 := attach_fresh_kret resolve kOk krOk s t1 fd program ty1 n1 a1
        hobj hp1 hty1 hr1 hf1 (hkrOk a1)
      set s1 : AttachState :=
        { s with attached := alistInsert (alistInsert s.attached ⟨ty1, a1⟩ [program]) (dualTp ty1 a1) [],
                 kretprobeLog := s.kretprobeLog ++ [a1] } with hs1
      have hobj1 : alistLookup s1.objects fd = some (.Program program) := hobj
      have hself1 : alistLookup s1.attached ⟨ty1, a1⟩ = some [program] := by
        rw [hs1]
        show alistLookup (alistInsert (alistInsert s.attached ⟨ty1, a1⟩ [program]) (dualTp ty1 a1) []) ⟨ty1, a1⟩ = some [program]
        have hdne : (⟨ty1, a1⟩ : Tracepoint) ≠ dualTp ty1 a1 := by
          unfold dualTp
          cases ty1 <;> simp_all
        rw [alistLookup_insert_other _ _ _ _ hdne, alistLookup_insert_self]
      by_cases hdual : (⟨ty2, a2⟩ : Tracepoint) = dualTp ty1 a1
      · -- second attach appends to the sibling's empty list
        have hatt2 : alistLookup s1.attached ⟨ty2, a2⟩ = some [] := by
          rw [hs1, hdual]
          show alistLookup (alistInsert (alistInsert s.attached ⟨ty1, a1⟩ [program]) (dualTp ty1 a1) []) (dualTp ty1 a1) = some []
          rw [alistLookup_insert_self]
        have h2 := attach_append resolve kOk krOk s1 t2 fd program ty2 n2 a2 []
          hobj1 hp2 hr2 hatt2 (by simp)
        refine ⟨_, _, h1, h2, ?_, ?_⟩
        · show program ∈ (alistLookup (alistUpdate s1.attached ⟨ty2, a2⟩ ([] ++ [program])) ⟨ty1, a1⟩).getD []
          rw [alistLookup_update_other _ _ _ _ hne, hself1]
          simp
        · show program ∈ (alistLookup (alistUpdate s1.attached ⟨ty2, a2⟩ ([] ++ [program])) ⟨ty2, a2⟩).getD []
          rw [alistLookup_update_self _ _ _ (by rw [hatt2]; rfl)]
          simp
      · -- second tracepoint still fresh in s1
        have hf2' : alistLookup s1.attached ⟨ty2, a2⟩ = none := by
          rw [hs1]
          show alistLookup (alistInsert (alistInsert s.attached ⟨ty1, a1⟩ [program]) (dualTp ty1 a1) []) ⟨ty2, a2⟩ = none
          rw [alistLookup_insert_other _ _ _ _ hdual,
            alistLookup_insert_other _ _ _ _ (Ne.symm hne), hf2]
        by_cases hty2 : ty2 = .KProbe
        · subst hty2
          have h2 := attach_fresh_kprobe resolve kOk krOk s1 t2 fd program n2 a2
            hobj1 hp2 hr2 hf2' (hkOk a2)
          refine ⟨_, _, h1, h2, ?_, ?_⟩
          · show program ∈ (alistLookup (alistInsert s1.attached ⟨.KProbe, a2⟩ [program]) ⟨ty1, a1⟩).getD []
            rw [alistLookup_insert_other _ _ _ _ hne, hself1]
            simp
          · show program ∈ (alistLookup (alistInsert s1.attached ⟨.KProbe, a2⟩ [program]) ⟨.KProbe, a2⟩).getD []
            rw [alistLookup_insert_self]
            simp
        · have h2 := attach_fresh_kret resolve kOk krOk s1 t2 fd program ty2 n2 a2
            hobj1 hp2 hty2 hr2 hf2' (hkrOk a2)
          have hd2ne : (⟨ty1, a1⟩ : Tracepoint) ≠ dualTp ty2 a2 := by
            intro hcontra
            apply hdual
            unfold dualTp at hcontra ⊢
            cases ty1 <;> cases ty2 <;> simp_all
          refine ⟨_, _, h1, h2, ?_, ?_⟩
          · show program ∈ (alistLookup (alistInsert (alistInsert s1.attached ⟨ty2, a2⟩ [program]) (dualTp ty2 a2) []) ⟨ty1, a1⟩).getD []
            rw [alistLookup_insert_other _ _ _ _ hd2ne,
              alistLookup_insert_other _ _ _ _ hne, hself1]
            simp
          · show program ∈ (alistLookup (alistInsert (alistInsert s1.attached ⟨ty2, a2⟩ [program]) (dualTp ty2 a2) []) ⟨ty2, a2⟩).getD []
            have hdne : (⟨ty2, a2⟩ : Tracepoint) ≠ dualTp ty2 a2 := by
              unfold dualTp
              cases ty2 <;> simp_all
            rw [alistLookup_insert_other _ _ _ _ hdne, alistLookup_insert_self]
            simp

/-! ### Concrete attach scenario used by witnesses. -/

/-- Symbol resolution instance: `foo ↦ 1000`, `bar ↦ 2000`. -/
def resolveW : List Char → Option ℕ := fun n =>
  if n = "foo".toList then some 1000
  else if n = "bar".toList then some 2000
  else none

/-- Registration oracle instance: every registration succeeds. -/
def okOracle : ℕ → Bool := fun _ => true

/-- Object table with one program (id 7) under descriptor 3. -/
def attachS0 : AttachState := ⟨[(3, .Program 7)], [], [], []⟩

/-- Like `attachS0` but program 7 already attached to `kprobe` at
`1000`. -/
def attachDup : AttachState := ⟨[(3, .Program 7)], [(⟨.KProbe, 1000⟩, [7])], [], []⟩

/-- Like `attachS0` but with an empty sibling list for
`kretprobe@exit` at `2000` (as the dual-entry bookkeeping leaves it). -/
def attachSib : AttachState := ⟨[(3, .Program 7)], [(⟨.KRetProbeExit, 2000⟩, [])], [], []⟩

/-- Witness for C5: with the duplicate already attached, re-attaching
returns `EAGAIN` with the state unchanged; and attaching program 7 to
`kprobe:foo` and then `kretprobe@entry:bar` succeeds with both lists
containing it. -/
theorem c5_attach_witness :
    bpf_program_attach resolveW okOracle okOracle attachDup "kprobe:foo".toList 3 =
      (.error .EAGAIN, attachDup) ∧
    (∃ s1 s2,
      bpf_program_attach resolveW okOracle okOracle attachS0 "kprobe:foo".toList 3 = (.ok 0, s1) ∧
      bpf_program_attach resolveW okOracle okOracle s1 "kretprobe@entry:bar".toList 3 = (.ok 0, s2) ∧
      7 ∈ (alistLookup s2.attached ⟨.KProbe, 1000⟩).getD [] ∧
      7 ∈ (alistLookup s2.attached ⟨.KRetProbeEntry, 2000⟩).getD []) :=
  ⟨c5_attach_duplicate_and_two_tracepoints.1 resolveW okOracle okOracle attachDup
      "kprobe:foo".toList 3 7 .KProbe "foo".toList 1000 [7] rfl rfl rfl rfl (by decide),
   c5_attach_duplicate_and_two_tracepoints.2 resolveW okOracle okOracle attachS0
      "kprobe:foo".toList "kretprobe@entry:bar".toList 3 7 .KProbe .KRetProbeEntry
      "foo".toList "bar".toList 1000 2000 rfl rfl rfl rfl rfl (by decide) rfl rfl
      (fun _ => rfl) (fun _ => rfl)⟩

/-! ### C6 — kretprobe dual-entry bookkeeping. -/

/-- Invariant I5: a `KRetProbeEntry` key is present for an address iff
the companion `KRetProbeExit` key is. -/
def pairInv (m : List (Tracepoint × List ℕ)) : Prop :=
  ∀ a : ℕ,
    (alistLookup m ⟨.KRetProbeEntry, a⟩).isSome ↔ (alistLookup m ⟨.KRetProbeExit, a⟩).isSome

/-- Run a sequence of `(target, prog_fd)` attach requests, keeping the
state of failed calls (which return it unchanged). -/
def runAttach (resolve : List Char → Option ℕ) (kOk krOk : ℕ → Bool) :
    List (List Char × ℕ) → AttachState → AttachState
  | [], s => s
  | op :: rest, s =>
      runAttach resolve kOk krOk rest (bpf_program_attach resolve kOk krOk s op.1 op.2).2

theorem alistUpdate_absent {K V : Type} [DecidableEq K] (m : List (K × V)) (k : K) (v : V)
    (h : alistLookup m k = none) : alistUpdate m k v = m := by
  induction m with
  | nil => rfl
  | cons e rest ih =>
      rw [alistLookup_cons] at h
      by_cases hk : e.1 = k
      · rw [if_pos hk] at h
        cases h
      · rw [if_neg hk] at h
        rw [alistUpdate_cons, if_neg hk, ih h]

theorem alistLookup_update_isSome {K V : Type} [DecidableEq K] (m : List (K × V)) (k k' : K) (v : V) :
    (alistLookup (alistUpdate m k v) k').isSome = (alistLookup m k').isSome := by
  by_cases hk : k' = k
  · subst hk
    by_cases hs : (alistLookup m k').isSome
    · rw [alistLookup_update_self m k' v hs, hs]
      rfl
    · have hn : alistLookup m k' = none := by
        cases h : alistLookup m k' with
        | none => rfl
        | some _ => rw [h] at hs; simp at hs
      rw [alistUpdate_absent m k' v hn]
  · rw [alistLookup_update_other m k k' v hk]

/-- Every `bpf_program_attach` call changes the attach map in one of
four ways: not at all, by appending to one existing list, by inserting
a fresh kprobe key, or by inserting a fresh kretprobe key together
with its (possibly overwritten) sibling key. -/
theorem attach_attached_cases (resolve : List Char → Option ℕ) (kOk krOk : ℕ → Bool)
    (s : AttachState) (target : List Char) (fd : ℕ) :
    (bpf_program_attach resolve kOk krOk s target fd).2.attached = s.attached ∨
    (∃ tp progs p, alistLookup s.attached tp = some progs ∧
      (bpf_program_attach resolve kOk krOk s target fd).2.attached =
        alistUpdate s.attached tp (progs ++ [p])) ∨
    (∃ a p, (bpf_program_attach resolve kOk krOk s target fd).2.attached =
        alistInsert s.attached ⟨.KProbe, a⟩ [p]) ∨
    (∃ ty a p, ty ≠ TracepointType.KProbe ∧
      (bpf_program_attach resolve kOk krOk s target fd).2.attached =
        alistInsert (alistInsert s.attached ⟨ty, a⟩ [p]) (dualTp ty a) []) := by
  unfold bpf_program_attach
  split
  next program heq =>
    split
    next => exact Or.inl rfl
    next ty name hparse =>
      cases hres : resolve name with
      | none => exact Or.inl rfl
      | some addr =>
          dsimp only
          cases hatt : alistLookup s.attached ⟨ty, addr⟩ with
          | some progs =>
              dsimp only
              by_cases hmem : program ∈ progs
              · rw [if_pos hmem]
                exact Or.inl rfl
              · rw [if_neg hmem]
                exact Or.inr (Or.inl ⟨⟨ty, addr⟩, progs, program, hatt, rfl⟩)
          | none =>
              cases ty with
              | KProbe =>
                  dsimp only
                  by_cases hk : kOk addr = true
                  · rw [if_pos hk]
                    exact Or.inr (Or.inr (Or.inl ⟨addr, program, rfl⟩))
                  · rw [if_neg hk]
                    exact Or.inl rfl
              | KRetProbeEntry =>
                  dsimp only
                  by_cases hk : krOk addr = true
                  · rw [if_pos hk]
                    exact Or.inr (Or.inr (Or.inr ⟨.KRetProbeEntry, addr, program, by simp, rfl⟩))
                  · rw [if_neg hk]
                    exact Or.inl rfl
              | KRetProbeExit =>
                  dsimp only
                  by_cases hk : krOk addr = true
                  · rw [if_pos hk]
                    exact Or.inr (Or.inr (Or.inr ⟨.KRetProbeExit, addr, program, by simp, rfl⟩))
                  · rw [if_neg hk]
                    exact Or.inl rfl
  next => exact Or.inl rfl

/-- One attach call preserves the pair invariant. -/
theorem pairInv_attach (resolve : List Char → Option ℕ) (kOk krOk : ℕ → Bool)
    (s : AttachState) (target : List Char) (fd : ℕ) (h : pairInv s.attached) :
    pairInv (bpf_program_attach resolve kOk krOk s target fd).2.attached := by
  rcases attach_attached_cases resolve kOk krOk s target fd with
    heq | ⟨tp, progs, p, hatt, heq⟩ | ⟨a, p, heq⟩ | ⟨ty, a, p, hty, heq⟩
  · rw [heq]
    exact h
  · rw [heq]
    intro x
    rw [show ((alistLookup (alistUpdate s.attached tp (progs ++ [p])) ⟨.KRetProbeEntry, x⟩).isSome ↔
        (alistLookup (alistUpdate s.attached tp (progs ++ [p])) ⟨.KRetProbeExit, x⟩).isSome) =
        ((alistLookup s.attached ⟨.KRetProbeEntry, x⟩).isSome ↔
        (alistLookup s.attached ⟨.KRetProbeExit, x⟩).isSome) from by
      rw [alistLookup_update_isSome, alistLookup_update_isSome]]
    exact h x
  · rw [heq]
    intro x
    rw [alistLookup_insert_other _ _ _ _ (by simp : (⟨.KRetProbeEntry, x⟩ : Tracepoint) ≠ ⟨.KProbe, a⟩),
      alistLookup_insert_other _ _ _ _ (by simp : (⟨.KRetProbeExit, x⟩ : Tracepoint) ≠ ⟨.KProbe, a⟩)]
    exact h x
  · rw [heq]
    intro x
    by_cases hx : x = a
    · subst hx
      cases ty with
      | KProbe => exact absurd rfl hty
      | KRetProbeEntry =>
          rw [show dualTp .KRetProbeEntry x = ⟨.KRetProbeExit, x⟩ from rfl]
          rw [alistLookup_insert_other _ _ _ _ (by simp : (⟨.KRetProbeEntry, x⟩ : Tracepoint) ≠ ⟨.KRetProbeExit, x⟩),
            alistLookup_insert_self, alistLookup_insert_self]
          simp
      | KRetProbeExit =>
          rw [show dualTp .KRetProbeExit x = ⟨.KRetProbeEntry, x⟩ from rfl]
          rw [alistLookup_insert_self,
            alistLookup_insert_other _ _ _ _ (by simp : (⟨.KRetProbeExit, x⟩ : Tracepoint) ≠ ⟨.KRetProbeEntry, x⟩),
            alistLookup_insert_self]
          simp
    · have h1 : (⟨.KRetProbeEntry, x⟩ : Tracepoint) ≠ ⟨ty, a⟩ := by
        intro hc
        injection hc with _ hTok
        exact hx hTok
      have h2 : (⟨.KRetProbeExit, x⟩ : Tracepoint) ≠ ⟨ty, a⟩ := by
        intro hc
        injection hc with _ hTok
        exact hx hTok
      have h3 : (⟨.KRetProbeEntry, x⟩ : Tracepoint) ≠ dualTp ty a := by
        unfold dualTp
        split <;> (intro hc; injection hc with _ hTok; exact hx hTok)
      have h4 : (⟨.KRetProbeExit, x⟩ : Tracepoint) ≠ dualTp ty a := by
        unfold dualTp
        split <;> (intro hc; injection hc with _ hTok; exact hx hTok)
      rw [alistLookup_insert_other _ _ _ _ h3, alistLookup_insert_other _ _ _ _ h1,
        alistLookup_insert_other _ _ _ _ h4, alistLookup_insert_other _ _ _ _ h2]
      exact h x

theorem pairInv_runAttach (resolve : List Char → Option ℕ) (kOk krOk : ℕ → Bool)
    (ops : List (List Char × ℕ)) (s : AttachState) (h : pairInv s.attached) :
    pairInv (runAttach resolve kOk krOk ops s).attached := by
  induction ops generalizing s with
  | nil => exact h
  | cons op rest ih =>
      exact ih _ (pairInv_attach resolve kOk krOk s op.1 op.2 h)

/-- C6: (a) after any sequence of attach calls from an empty attach
map, a `KRetProbeEntry` key is present for an address iff the
companion `KRetProbeExit` key is; (b) the first attach to a fresh
kretprobe tracepoint (either kind) registers the underlying kretprobe
exactly once (the registration log grows by exactly that address) and
creates both keys; (c) an attach to a tracepoint whose list already
exists (in particular the sibling kind's key created by (b)) appends
to that list and registers nothing. -/
theorem c6_kretprobe_pair_invariant :
    (∀ (resolve : List Char → Option ℕ) (kOk krOk : ℕ → Bool)
       (ops : List (List Char × ℕ)) (objs : List (ℕ × BpfObject)),
       pairInv (runAttach resolve kOk krOk ops ⟨objs, [], [], []⟩).attached) ∧
    (∀ (resolve : List Char → Option ℕ) (kOk krOk : ℕ → Bool) (s : AttachState)
       (target : List Char) (fd program : ℕ) (ty : TracepointType)
       (name : List Char) (addr : ℕ),
       alistLookup s.objects fd = some (.Program program) →
       parse_tracepoint target = .ok (ty, name) →
       ty ≠ .KProbe →
       resolve name = some addr →
       alistLookup s.attached ⟨ty, addr⟩ = none →
       krOk addr = true →
       (bpf_program_attach resolve kOk krOk s target fd).2.kretprobeLog =
         s.kretprobeLog ++ [addr] ∧
       (alistLookup (bpf_program_attach resolve kOk krOk s target fd).2.attached
         ⟨.KRetProbeEntry, addr⟩).isSome = true ∧
       (alistLookup (bpf_program_attach resolve kOk krOk s target fd).2.attached
         ⟨.KRetProbeExit, addr⟩).isSome = true) ∧
    (∀ (resolve : List Char → Option ℕ) (kOk krOk : ℕ → Bool) (s : AttachState)
       (target : List Char) (fd program : ℕ) (ty : TracepointType)
       (name : List Char) (addr : ℕ) (progs : List ℕ),
       alistLookup s.objects fd = some (.Program program) →
       parse_tracepoint target = .ok (ty, name) →
       resolve name = some addr →
       alistLookup s.attached ⟨ty, addr⟩ = some progs →
       program ∉ progs →
       (bpf_program_attach resolve kOk krOk s target fd).2.kretprobeLog = s.kretprobeLog ∧
       (bpf_program_attach resolve kOk krOk s target fd).2.kprobeLog = s.kprobeLog ∧
       (bpf_program_attach resolve kOk krOk s target fd).2.attached =
         alistUpdate s.attached ⟨ty, addr⟩ (progs ++ [program])) := by
  refine ⟨?_, ?_, ?_⟩
  · intro resolve kOk krOk ops objs
    exact pairInv_runAttach resolve kOk krOk ops _ (fun _ => Iff.rfl)
  · intro resolve kOk krOk s target fd program ty name addr
      hobj hparse hty hres hatt hk
    rw [attach_fresh_kret resolve kOk krOk s target fd program ty name addr
      hobj hparse hty hres hatt hk]
    refine ⟨rfl, ?_, ?_⟩
    · cases ty with
      | KProbe => exact absurd rfl hty
      | KRetProbeEntry =>
          show (alistLookup (alistInsert (alistInsert s.attached ⟨.KRetProbeEntry, addr⟩ [program]) (dualTp .KRetProbeEntry addr) []) ⟨.KRetProbeEntry, addr⟩).isSome = true
          rw [show dualTp .KRetProbeEntry addr = ⟨.KRetProbeExit, addr⟩ from rfl,
            alistLookup_insert_other _ _ _ _ (by simp : (⟨.KRetProbeEntry, addr⟩ : Tracepoint) ≠ ⟨.KRetProbeExit, addr⟩),
            alistLookup_insert_self]
          rfl
      | KRetProbeExit =>
          show (alistLookup (alistInsert (alistInsert s.attached ⟨.KRetProbeExit, addr⟩ [program]) (dualTp .KRetProbeExit addr) []) ⟨.KRetProbeEntry, addr⟩).isSome = true
          rw [show dualTp .KRetProbeExit addr = ⟨.KRetProbeEntry, addr⟩ from rfl,
            alistLookup_insert_self]
          rfl
    · cases ty with
      | KProbe => exact absurd rfl hty
      | KRetProbeEntry =>
          show (alistLookup (alistInsert (alistInsert s.attached ⟨.KRetProbeEntry, addr⟩ [program]) (dualTp .KRetProbeEntry addr) []) ⟨.KRetProbeExit, addr⟩).isSome = true
          rw [show dualTp .KRetProbeEntry addr = ⟨.KRetProbeExit, addr⟩ from rfl,
            alistLookup_insert_self]
          rfl
      | KRetProbeExit =>
          show (alistLookup (alistInsert (alistInsert s.attached ⟨.KRetProbeExit, addr⟩ [program]) (dualTp .KRetProbeExit addr) []) ⟨.KRetProbeExit, addr⟩).isSome = true
          rw [show dualTp .KRetProbeExit addr = ⟨.KRetProbeEntry, addr⟩ from rfl,
            alistLookup_insert_other _ _ _ _ (by simp : (⟨.KRetProbeExit, addr⟩ : Tracepoint) ≠ ⟨.KRetProbeEntry, addr⟩),
            alistLookup_insert_self]
          rfl
  · intro resolve kOk krOk s target fd program ty name addr progs
      hobj hparse hres hatt hmem
    rw [attach_append resolve kOk krOk s target fd program ty name addr progs
      hobj hparse hres hatt hmem]
    exact ⟨rfl, rfl, rfl⟩

/-- Witness for C6 at concrete inputs: the first kretprobe attach (to
`kretprobe@entry:bar` at address `2000`) logs exactly one kretprobe
registration and creates both keys; attaching to the sibling key of
`attachSib` appends without registering; and the pair invariant holds
after running those attach requests from an empty map. -/
theorem c6_kretprobe_pair_invariant_witness :
    ((bpf_program_attach resolveW okOracle okOracle attachS0 "kretprobe@entry:bar".toList 3).2.kretprobeLog
        = attachS0.kretprobeLog ++ [2000] ∧
      (alistLookup (bpf_program_attach resolveW okOracle okOracle attachS0 "kretprobe@entry:bar".toList 3).2.attached
        ⟨.KRetProbeEntry, 2000⟩).isSome = true ∧
      (alistLookup (bpf_program_attach resolveW okOracle okOracle attachS0 "kretprobe@entry:bar".toList 3).2.attached
        ⟨.KRetProbeExit, 2000⟩).isSome = true) ∧
    ((bpf_program_attach resolveW okOracle okOracle attachSib "kretprobe@exit:bar".toList 3).2.kretprobeLog
        = attachSib.kretprobeLog ∧
      (bpf_program_attach resolveW okOracle okOracle attachSib "kretprobe@exit:bar".toList 3).2.kprobeLog
        = attachSib.kprobeLog ∧
      (bpf_program_attach resolveW okOracle okOracle attachSib "kretprobe@exit:bar".toList 3).2.attached
        = alistUpdate attachSib.attached ⟨.KRetProbeExit, 2000⟩ ([] ++ [7])) ∧
    pairInv (runAttach resolveW okOracle okOracle
      [("kretprobe@entry:bar".toList, 3), ("kprobe:foo".toList, 3)] ⟨[(3, .Program 7)], [], [], []⟩).attached :=
  ⟨c6_kretprobe_pair_invariant.2.1 resolveW okOracle okOracle attachS0
      "kretprobe@entry:bar".toList 3 7 .KRetProbeEntry "bar".toList 2000
      rfl rfl (by simp) rfl rfl rfl,
   c6_kretprobe_pair_invariant.2.2 resolveW okOracle okOracle attachSib
      "kretprobe@exit:bar".toList 3 7 .KRetProbeExit "bar".toList 2000 []
      rfl rfl rfl rfl (by simp),
   c6_kretprobe_pair_invariant.1 resolveW okOracle okOracle
      [("kretprobe@entry:bar".toList, 3), ("kprobe:foo".toList, 3)] [(3, .Program 7)]⟩

/-! ### C7 — loader error checks (code bug in the `ENOENT` check). -/

/-- An object whose machine type is not BPF (62 is `EM_X86_64`). -/
def elfWrongMachine : ElfFile := ⟨.Other 62, []⟩

/-- The symbol table of the failing input: two symbols, both named
`a`. -/
def elfDupSyms : List (Option (List Char)) := [some "a".toList, some "a".toList]

/-- The failing input: a BPF-machine object with duplicate symbol
names `a`, `a` and a `.text` section. -/
def elfDup : ElfFile :=
  ⟨.BPF, [⟨".symtab".toList, .symbolTable64 elfDupSyms⟩, ⟨".text".toList, .raw []⟩]⟩

/-- Bindings for the failing input: `a` (matched twice) and `b`
(matched by no symbol). -/
def mapInfoDup : List (List Char × ℕ) := [("a".toList, 1), ("b".toList, 2)]

/-- C7: loading with a non-BPF machine type fails with `EINVAL`
(claim's first half, confirmed); but loading an object where the
supplied binding `b` matches no symbol does NOT fail with `ENOENT`:
because two symbols share the name `a`, `map_symbols` gets two entries
and the `map_symbols.len() != map_info.len()` check — whose source
comment says it detects "unable to resolve all map info" — passes, and
the load succeeds. -/
theorem c7_loader_machine_check_and_enoent_divergence :
    bpf_program_load_ex 0 0 elfWrongMachine mapInfoDup = .error .EINVAL ∧
    (∃ mf ∈ mapInfoDup, ∀ os ∈ elfDupSyms, os ≠ some mf.1) ∧
    bpf_program_load_ex 0 0 elfDup mapInfoDup = .ok 0 :=
  ⟨rfl, by decide, rfl⟩

/-! ### Helper lemmas for the allocator invariant (C3/C4). -/

theorem mem_foldl_insert (f : ℕ → ℕ) (l : List ℕ) (fs : Finset ℕ) (a : ℕ) :
    (a ∈ l.foldl (fun acc i => insert (f i) acc) fs) ↔ a ∈ fs ∨ ∃ i ∈ l, a = f i := by
  induction l generalizing fs with
  | nil => simp
  | cons x xs ih =>
      rw [List.foldl_cons, ih]
      constructor
      · rintro (hmem | ⟨i, hi, rfl⟩)
        · rcases Finset.mem_insert.mp hmem with h | h
          · exact Or.inr ⟨x, List.mem_cons_self x xs, h⟩
          · exact Or.inl h
        · exact Or.inr ⟨i, List.mem_cons_of_mem x hi, rfl⟩
      · rintro (h | ⟨i, hi, rfl⟩)
        · exact Or.inl (Finset.mem_insert_of_mem h)
        · rcases List.mem_cons.mp hi with rfl | hi'
          · exact Or.inl (Finset.mem_insert_self _ _)
          · exact Or.inr ⟨i, hi', rfl⟩

theorem mem_foldl_erase (f : ℕ → ℕ) (l : List ℕ) (fs : Finset ℕ) (a : ℕ) :
    (a ∈ l.foldl (fun acc i => acc.erase (f i)) fs) ↔ a ∈ fs ∧ ∀ i ∈ l, a ≠ f i := by
  induction l generalizing fs with
  | nil => simp
  | cons x xs ih =>
      rw [List.foldl_cons, ih]
      constructor
      · rintro ⟨hmem, hall⟩
        have hx := Finset.mem_erase.mp hmem
        refine ⟨hx.2, fun i hi => ?_⟩
        rcases List.mem_cons.mp hi with rfl | hi'
        · exact hx.1
        · exact hall i hi'
      · rintro ⟨hmem, hall⟩
        exact ⟨Finset.mem_erase.mpr ⟨hall x (List.mem_cons_self x xs), hmem⟩,
          fun i hi => hall i (List.mem_cons_of_mem x hi)⟩

theorem alistLookup_some_mem {K V : Type} [DecidableEq K] {m : List (K × V)} {k : K} {v : V}
    (h : alistLookup m k = some v) : (k, v) ∈ m := by
  induction m with
  | nil => cases h
  | cons e rest ih =>
      rw [alistLookup_cons] at h
      by_cases hk : e.1 = k
      · rw [if_pos hk] at h
        injection h with hv
        subst hk
        subst hv
        exact List.mem_cons_self e rest
      · rw [if_neg hk] at h
        exact List.mem_cons_of_mem e (ih h)

theorem alistLookup_eq_none_iff {K V : Type} [DecidableEq K] (m : List (K × V)) (k : K) :
    alistLookup m k = none ↔ k ∉ m.map Prod.fst := by
  induction m with
  | nil => simp
  | cons e rest ih =>
      rw [alistLookup_cons]
      by_cases hk : e.1 = k
      · simp [hk]
      · simp [hk, ih, Ne.symm hk]

theorem alistLookup_isSome_iff {K V : Type} [DecidableEq K] (m : List (K × V)) (k : K) :
    (alistLookup m k).isSome ↔ k ∈ m.map Prod.fst := by
  cases h : alistLookup m k with
  | none =>
      have hn := (alistLookup_eq_none_iff m k).mp h
      simp [hn]
  | some v =>
      have hm : k ∈ m.map Prod.fst := List.mem_map.mpr ⟨(k, v), alistLookup_some_mem h, rfl⟩
      simp [hm]

theorem alistLookup_of_mem_nodup {K V : Type} [DecidableEq K] {m : List (K × V)} {k : K} {v : V}
    (hnd : (m.map Prod.fst).Nodup) (hmem : (k, v) ∈ m) : alistLookup m k = some v := by
  induction m with
  | nil => cases hmem
  | cons e rest ih =>
      rw [List.map_cons, List.nodup_cons] at hnd
      rcases List.mem_cons.mp hmem with heq | hmem'
      · rw [← heq, alistLookup_cons, if_pos rfl]
      · rw [alistLookup_cons]
        have hk : e.1 ≠ k := by
          intro hc
          exact hnd.1 (hc ▸ (List.mem_map.mpr ⟨(k, v), hmem', rfl⟩))
        rw [if_neg hk]
        exact ih hnd.2 hmem'

theorem alistErase_lookup_other {K V : Type} [DecidableEq K] (m : List (K × V)) (k k' : K)
    (h : k' ≠ k) : alistLookup (alistErase m k) k' = alistLookup m k' := by
  induction m with
  | nil => rfl
  | cons e rest ih =>
      show alistLookup (if e.1 = k then rest else e :: alistErase rest k) k' = _
      by_cases hk : e.1 = k
      · rw [if_pos hk, alistLookup_cons, if_neg (by rw [hk]; exact Ne.symm h)]
      · rw [if_neg hk, alistLookup_cons, alistLookup_cons, ih]

theorem alistErase_lookup_self {K V : Type} [DecidableEq K] (m : List (K × V)) (k : K)
    (hnd : (m.map Prod.fst).Nodup) : alistLookup (alistErase m k) k = none := by
  induction m with
  | nil => rfl
  | cons e rest ih =>
      rw [List.map_cons, List.nodup_cons] at hnd
      show alistLookup (if e.1 = k then rest else e :: alistErase rest k) k = none
      by_cases hk : e.1 = k
      · rw [if_pos hk, alistLookup_eq_none_iff]
        rw [hk] at hnd
        exact hnd.1
      · rw [if_neg hk, alistLookup_cons, if_neg hk]
        exact ih hnd.2

theorem alistErase_sublist {K V : Type} [DecidableEq K] (m : List (K × V)) (k : K) :
    List.Sublist (alistErase m k) m := by
  induction m with
  | nil => exact List.Sublist.refl []
  | cons e rest ih =>
      show List.Sublist (if e.1 = k then rest else e :: alistErase rest k) (e :: rest)
      by_cases hk : e.1 = k
      · rw [if_pos hk]
        exact List.sublist_cons_self e rest
      · rw [if_neg hk]
        exact List.Sublist.cons₂ e ih

theorem alistErase_length_of_present {K V : Type} [DecidableEq K] (m : List (K × V)) (k : K)
    (h : (alistLookup m k).isSome) : (alistErase m k).length + 1 = m.length := by
  induction m with
  | nil => simp [alistLookup] at h
  | cons e rest ih =>
      show (if e.1 = k then rest else e :: alistErase rest k).length + 1 = rest.length + 1
      by_cases hk : e.1 = k
      · rw [if_pos hk]
      · rw [if_neg hk]
        rw [alistLookup_cons, if_neg hk] at h
        rw [List.length_cons, ih h]

theorem alistUpdate_map_fst {K V : Type} [DecidableEq K] (m : List (K × V)) (k : K) (v : V) :
    (alistUpdate m k v).map Prod.fst = m.map Prod.fst := by
  induction m with
  | nil => rfl
  | cons e rest ih =>
      rw [alistUpdate_cons, List.map_cons, List.map_cons, ih]
      by_cases hk : e.1 = k
      · rw [if_pos hk, hk]
      · rw [if_neg hk]

/-! ### Arithmetic facts about `pageBase` and slot addresses. -/

theorem pageBase_add_of_lt {base off : ℕ} (hb : base % PAGE_SIZE = 0) (ho : off < PAGE_SIZE) :
    pageBase (base + off) = base := by
  have hb' : base % 4096 = 0 := hb
  have ho' : off < 4096 := ho
  show (base + off) / 4096 * 4096 = base
  omega

theorem pageBase_le_and_lt (a : ℕ) : pageBase a ≤ a ∧ a < pageBase a + PAGE_SIZE := by
  show a / 4096 * 4096 ≤ a ∧ a < a / 4096 * 4096 + 4096
  omega

/-- A 2-aligned address on a 4096-aligned page is one of the page's
`BREAKPOINTS_PER_PAGE` slots. -/
theorem slot_decomp {x p : ℕ} (hp : p % PAGE_SIZE = 0) (hx : pageBase x = p)
    (he : x % BREAKPOINT_LENGTH = 0) :
    ∃ i, i < BREAKPOINTS_PER_PAGE ∧ x = p + i * BREAKPOINT_LENGTH := by
  have hp' : p % 4096 = 0 := hp
  have hx' : x / 4096 * 4096 = p := hx
  have he' : x % 2 = 0 := he
  show ∃ i, i < 2048 ∧ x = p + i * 2
  exact ⟨(x - p) / 2, by omega, by omega⟩

theorem alistInsert_absent {K V : Type} [DecidableEq K] (m : List (K × V)) (k : K) (v : V)
    (h : alistLookup m k = none) : alistInsert m k v = (k, v) :: m := by
  simp [alistInsert, h]

/-! ### Reduction equations for the allocator operations. -/

theorem alloc_breakpoint_pop (sup : ℕ → ℕ) (s : BpState) (h : s.free.Nonempty) (n : ℕ)
    (hl : alistLookup s.pages (pageBase (s.free.min' h)) = some n) :
    alloc_breakpoint sup s = some (s.free.min' h,
      { s with
        free := s.free.erase (s.free.min' h),
        pages := alistUpdate s.pages (pageBase (s.free.min' h)) (n - 1) }) := by
  unfold alloc_breakpoint
  rw [dif_pos h]
  simp only [hl]

theorem alloc_breakpoint_fresh (sup : ℕ → ℕ) (s : BpState) (h : ¬s.free.Nonempty) :
    alloc_breakpoint sup s = some (sup s.frames,
      { free := (List.range' 1 (BREAKPOINTS_PER_PAGE - 1)).foldl
          (fun fs i => insert (sup s.frames + i * BREAKPOINT_LENGTH) fs) s.free,
        pages := alistInsert s.pages (sup s.frames) (BREAKPOINTS_PER_PAGE - 1),
        frames := s.frames + 1,
        mem := ebreakWrite s.mem (sup s.frames) (PAGE_SIZE / BREAKPOINT_LENGTH) }) := by
  unfold alloc_breakpoint
  rw [dif_neg h]

theorem free_breakpoint_keep (s : BpState) (addr n : ℕ)
    (hl : alistLookup s.pages (pageBase addr) = some n)
    (hc : ¬(n + 1 = BREAKPOINTS_PER_PAGE ∧
            1 < (alistUpdate s.pages (pageBase addr) (n + 1)).length)) :
    free_breakpoint s addr = some
      { s with
        free := insert addr s.free,
        pages := alistUpdate s.pages (pageBase addr) (n + 1) } := by
  unfold free_breakpoint
  simp only [hl, if_neg hc]

theorem free_breakpoint_drop (s : BpState) (addr n : ℕ)
    (hl : alistLookup s.pages (pageBase addr) = some n)
    (hc : n + 1 = BREAKPOINTS_PER_PAGE ∧
          1 < (alistUpdate s.pages (pageBase addr) (n + 1)).length) :
    free_breakpoint s addr = some
      { s with
        free := (List.range BREAKPOINTS_PER_PAGE).foldl
          (fun fs i => fs.erase (pageBase addr + i * BREAKPOINT_LENGTH)) (insert addr s.free),
        pages := alistErase (alistUpdate s.pages (pageBase addr) (n + 1)) (pageBase addr) } := by
  unfold free_breakpoint
  simp only [hl, if_pos hc]

/-! ### The allocator well-formedness invariant (C3).

`outs` is the ghost set of outstanding slot addresses (returned by
`alloc_breakpoint` and not yet freed). -/

structure BpWF (s : BpState) (outs : Finset ℕ) : Prop where
  freeCovered : ∀ a ∈ s.free, (alistLookup s.pages (pageBase a)).isSome
  counts : ∀ p n, alistLookup s.pages p = some n →
    n = (s.free.filter (fun x => pageBase x = p)).card
  disj : ∀ a ∈ outs, a ∉ s.free
  outsCovered : ∀ a ∈ outs, (alistLookup s.pages (pageBase a)).isSome
  evenFree : ∀ a ∈ s.free, a % BREAKPOINT_LENGTH = 0
  evenOuts : ∀ a ∈ outs, a % BREAKPOINT_LENGTH = 0
  aligned : ∀ p, (alistLookup s.pages p).isSome → p % PAGE_SIZE = 0
  nodup : (s.pages.map Prod.fst).Nodup
  full : ∀ p n, alistLookup s.pages p = some n →
    n + (outs.filter (fun x => pageBase x = p)).card = BREAKPOINTS_PER_PAGE
  oneFull : ∀ p q, alistLookup s.pages p = some BREAKPOINTS_PER_PAGE →
    alistLookup s.pages q = some BREAKPOINTS_PER_PAGE → p = q

theorem bpWF_empty : BpWF bpEmpty ∅ := by
  refine ⟨?_, ?_, ?_, ?_, ?_, ?_, ?_, ?_, ?_, ?_⟩ <;> simp [bpEmpty]

theorem freshFree_eq (base : ℕ) :
    (List.range' 1 (BREAKPOINTS_PER_PAGE - 1)).foldl
      (fun fs i => insert (base + i * BREAKPOINT_LENGTH) fs) (∅ : Finset ℕ) =
    (Finset.Ico 1 BREAKPOINTS_PER_PAGE).image (fun i => base + i * BREAKPOINT_LENGTH) := by
  have hb : (1 : ℕ) + (BREAKPOINTS_PER_PAGE - 1) = BREAKPOINTS_PER_PAGE := rfl
  ext x
  rw [mem_foldl_insert]
  simp only [Finset.not_mem_empty, false_or, Finset.mem_image, Finset.mem_Ico]
  constructor
  · rintro ⟨i, hi, rfl⟩
    rw [List.mem_range'_1, hb] at hi
    exact ⟨i, hi, rfl⟩
  · rintro ⟨i, hi, rfl⟩
    exact ⟨i, by rw [List.mem_range'_1, hb]; exact hi, rfl⟩

theorem slot_injective (base : ℕ) :
    Function.Injective (fun i => base + i * BREAKPOINT_LENGTH) := by
  intro i j hij
  have h : base + i * 2 = base + j * 2 := hij
  omega

/-- One `alloc_breakpoint` call from a well-formed state succeeds,
returns a slot that was not outstanding, and preserves the invariant
with the slot added to the outstanding set; the page table is nonempty
afterwards. -/
theorem alloc_step (sup : ℕ → ℕ) (s : BpState) (outs : Finset ℕ) (hwf : BpWF s outs)
    (hfresh : ¬s.free.Nonempty →
      sup s.frames % PAGE_SIZE = 0 ∧ alistLookup s.pages (sup s.frames) = none) :
    ∃ a s', alloc_breakpoint sup s = some (a, s') ∧ a ∉ outs ∧ s'.pages ≠ [] ∧
      BpWF s' (insert a outs) := by
  have hbpp : BREAKPOINTS_PER_PAGE = 2048 := rfl
  by_cases h : s.free.Nonempty
  · -- pop branch: take the least free slot
    have ha : s.free.min' h ∈ s.free := Finset.min'_mem _ _
    set a := s.free.min' h with ha_def
    set base := pageBase a with hbase_def
    have hcov := hwf.freeCovered a ha
    cases hl : alistLookup s.pages base with
    | none => rw [hl] at hcov; simp at hcov
    | some n =>
        have heq := alloc_breakpoint_pop sup s h n hl
        have hanotin : a ∉ outs := fun hc => hwf.disj a hc ha
        have hcard : n = (s.free.filter (fun x => pageBase x = base)).card :=
          hwf.counts base n hl
        have hamem : a ∈ s.free.filter (fun x => pageBase x = base) :=
          Finset.mem_filter.mpr ⟨ha, hbase_def.symm⟩
        have hn1 : 1 ≤ n := hcard ▸ Finset.card_pos.mpr ⟨a, hamem⟩
        have hfull := hwf.full base n hl
        have hupd_self : alistLookup (alistUpdate s.pages base (n - 1)) base = some (n - 1) :=
          alistLookup_update_self _ _ _ (by rw [hl]; rfl)
        refine ⟨a, _, heq, hanotin, ?_, ?_⟩
        · -- page table stays nonempty
          intro hnil
          have hnil' : alistUpdate s.pages base (n - 1) = [] := hnil
          cases hp : s.pages with
          | nil => rw [hp] at hl; cases hl
          | cons e r =>
              rw [hp, alistUpdate_cons] at hnil'
              cases hnil'
        · constructor
          · intro x hx
            show (alistLookup (alistUpdate s.pages base (n - 1)) (pageBase x)).isSome
            rw [alistLookup_update_isSome]
            exact hwf.freeCovered x (Finset.mem_of_mem_erase hx)
          · intro p m hm
            have hm' : alistLookup (alistUpdate s.pages base (n - 1)) p = some m := hm
            show m = ((s.free.erase a).filter (fun x => pageBase x = p)).card
            rw [Finset.filter_erase]
            by_cases hp : p = base
            · subst hp
              rw [hupd_self] at hm'
              injection hm' with hm'
              rw [Finset.card_erase_of_mem hamem, ← hcard, ← hm']
            · rw [alistLookup_update_other _ _ _ _ hp] at hm'
              rw [Finset.erase_eq_of_not_mem
                (fun hc => hp (((Finset.mem_filter.mp hc).2).symm.trans hbase_def.symm))]
              exact hwf.counts p m hm'
          · intro x hx
            rcases Finset.mem_insert.mp hx with rfl | hx'
            · exact Finset.not_mem_erase _ _
            · exact fun hc => hwf.disj x hx' (Finset.mem_of_mem_erase hc)
          · intro x hx
            show (alistLookup (alistUpdate s.pages base (n - 1)) (pageBase x)).isSome
            rw [alistLookup_update_isSome]
            rcases Finset.mem_insert.mp hx with rfl | hx'
            · rw [← hbase_def, hl]; rfl
            · exact hwf.outsCovered x hx'
          · intro x hx
            exact hwf.evenFree x (Finset.mem_of_mem_erase hx)
          · intro x hx
            rcases Finset.mem_insert.mp hx with rfl | hx'
            · exact hwf.evenFree _ ha
            · exact hwf.evenOuts x hx'
          · intro p hp
            have hp' : (alistLookup (alistUpdate s.pages base (n - 1)) p).isSome := hp
            rw [alistLookup_update_isSome] at hp'
            exact hwf.aligned p hp'
          · show ((alistUpdate s.pages base (n - 1)).map Prod.fst).Nodup
            rw [alistUpdate_map_fst]
            exact hwf.nodup
          · intro p m hm
            have hm' : alistLookup (alistUpdate s.pages base (n - 1)) p = some m := hm
            show m + ((insert a outs).filter (fun x => pageBase x = p)).card =
              BREAKPOINTS_PER_PAGE
            rw [Finset.filter_insert]
            by_cases hp : p = base
            · subst hp
              rw [hupd_self] at hm'
              injection hm' with hm'
              rw [if_pos hbase_def.symm,
                Finset.card_insert_of_not_mem (fun hc => hanotin (Finset.mem_filter.mp hc).1)]
              omega
            · rw [alistLookup_update_other _ _ _ _ hp] at hm'
              rw [if_neg (fun hc : pageBase a = p => hp (hc ▸ hbase_def))]
              exact hwf.full p m hm'
          · intro p q hp hq
            have hp' : alistLookup (alistUpdate s.pages base (n - 1)) p =
              some BREAKPOINTS_PER_PAGE := hp
            have hq' : alistLookup (alistUpdate s.pages base (n - 1)) q =
              some BREAKPOINTS_PER_PAGE := hq
            have hnb : n - 1 ≠ BREAKPOINTS_PER_PAGE := by omega
            have hpb : p ≠ base := by
              intro hc
              subst hc
              rw [hupd_self] at hp'
              injection hp' with hp'
              exact hnb hp'
            have hqb : q ≠ base := by
              intro hc
              subst hc
              rw [hupd_self] at hq'
              injection hq' with hq'
              exact hnb hq'
            rw [alistLookup_update_other _ _ _ _ hpb] at hp'
            rw [alistLookup_update_other _ _ _ _ hqb] at hq'
            exact hwf.oneFull p q hp' hq'
  · -- fresh-page branch
    obtain ⟨halign, hnone⟩ := hfresh h
    have hfe : s.free = ∅ := Finset.not_nonempty_iff_eq_empty.mp h
    set base := sup s.frames with hbase_def
    have halign' : base % 4096 = 0 := halign
    have hpb_base : pageBase base = base := by
      have h0 := @pageBase_add_of_lt base 0 halign (by decide)
      simpa using h0
    have heq := alloc_breakpoint_fresh sup s h
    rw [alistInsert_absent _ _ _ hnone, hfe, freshFree_eq] at heq
    set F : Finset ℕ := (Finset.Ico 1 BREAKPOINTS_PER_PAGE).image
      (fun i => sup s.frames + i * BREAKPOINT_LENGTH) with hF_def
    have hmemF : ∀ x, x ∈ F ↔
        ∃ i, (1 ≤ i ∧ i < BREAKPOINTS_PER_PAGE) ∧ x = base + i * BREAKPOINT_LENGTH := by
      intro x
      rw [hF_def]
      simp only [Finset.mem_image, Finset.mem_Ico]
      constructor
      · rintro ⟨i, hi, rfl⟩
        exact ⟨i, hi, rfl⟩
      · rintro ⟨i, hi, rfl⟩
        exact ⟨i, hi, rfl⟩
    have hpbF : ∀ x ∈ F, pageBase x = base := by
      intro x hx
      obtain ⟨i, ⟨h1, h2⟩, rfl⟩ := (hmemF x).mp hx
      exact pageBase_add_of_lt halign (by
        show i * 2 < 4096
        omega)
    have houts_nb : ∀ x ∈ outs, pageBase x ≠ base := by
      intro x hx hc
      have hcv := hwf.outsCovered x hx
      rw [hc, hnone] at hcv
      cases hcv
    have hbase_notF : base ∉ F := by
      intro hc
      obtain ⟨i, ⟨h1, _⟩, hi⟩ := (hmemF base).mp hc
      have hb2 : base = base + i * 2 := hi
      omega
    have hbase_notouts : base ∉ outs := fun hc => houts_nb base hc hpb_base
    have hcardF : F.card = BREAKPOINTS_PER_PAGE - 1 := by
      rw [hF_def, Finset.card_image_of_injective _ (slot_injective base), Nat.card_Ico]
    refine ⟨base, _, heq, hbase_notouts, ?_, ?_⟩
    · intro hnil
      have hnil' : ((base, BREAKPOINTS_PER_PAGE - 1) :: s.pages : List (ℕ × ℕ)) = [] := hnil
      cases hnil'
    constructor
    · intro x hx
      show (alistLookup ((base, BREAKPOINTS_PER_PAGE - 1) :: s.pages) (pageBase x)).isSome
      simp only [alistLookup_cons]
      rw [if_pos (hpbF x hx).symm]
      rfl
    · intro p m hm
      have hm' : alistLookup ((base, BREAKPOINTS_PER_PAGE - 1) :: s.pages) p = some m := hm
      simp only [alistLookup_cons] at hm'
      show m = (F.filter (fun x => pageBase x = p)).card
      by_cases hp : base = p
      · rw [if_pos hp] at hm'
        rw [Option.some.injEq] at hm'
        subst hp
        rw [Finset.filter_eq_self.mpr (fun x hx => hpbF x hx), ← hm', hcardF]
      · rw [if_neg hp] at hm'
        have h0 := hwf.counts p m hm'
        rw [hfe] at h0
        simp only [Finset.filter_empty, Finset.card_empty] at h0
        rw [Finset.card_eq_zero.mpr (Finset.filter_eq_empty_iff.mpr
          (fun {x} hx => fun hc => hp ((hpbF x hx) ▸ hc)))]
        exact h0
    · intro x hx
      rcases Finset.mem_insert.mp hx with rfl | hx'
      · exact hbase_notF
      · intro hc
        exact houts_nb x hx' (hpbF x hc)
    · intro x hx
      show (alistLookup ((base, BREAKPOINTS_PER_PAGE - 1) :: s.pages) (pageBase x)).isSome
      simp only [alistLookup_cons]
      rcases Finset.mem_insert.mp hx with rfl | hx'
      · rw [if_pos hpb_base.symm]
        rfl
      · rw [if_neg (fun hc => houts_nb x hx' hc.symm)]
        exact hwf.outsCovered x hx'
    · intro x hx
      obtain ⟨i, ⟨h1, h2⟩, rfl⟩ := (hmemF x).mp hx
      show (base + i * 2) % 2 = 0
      omega
    · intro x hx
      rcases Finset.mem_insert.mp hx with rfl | hx'
      · show base % 2 = 0
        omega
      · exact hwf.evenOuts x hx'
    · intro p hp
      have hp' : (alistLookup ((base, BREAKPOINTS_PER_PAGE - 1) :: s.pages) p).isSome := hp
      simp only [alistLookup_cons] at hp'
      by_cases hpb : base = p
      · rw [← hpb]
        exact halign
      · rw [if_neg hpb] at hp'
        exact hwf.aligned p hp'
    · show ((((base, BREAKPOINTS_PER_PAGE - 1)) :: s.pages).map Prod.fst).Nodup
      rw [List.map_cons, List.nodup_cons]
      exact ⟨(alistLookup_eq_none_iff s.pages base).mp hnone, hwf.nodup⟩
    · intro p m hm
      have hm' : alistLookup ((base, BREAKPOINTS_PER_PAGE - 1) :: s.pages) p = some m := hm
      simp only [alistLookup_cons] at hm'
      show m + ((insert base outs).filter (fun x => pageBase x = p)).card =
        BREAKPOINTS_PER_PAGE
      rw [Finset.filter_insert]
      by_cases hp : base = p
      · rw [if_pos hp] at hm'
        rw [Option.some.injEq] at hm'
        subst hp
        rw [if_pos hpb_base,
          Finset.card_insert_of_not_mem (fun hc => hbase_notouts (Finset.mem_filter.mp hc).1),
          Finset.card_eq_zero.mpr (Finset.filter_eq_empty_iff.mpr
            (fun {x} hx => houts_nb x hx))]
        omega
      · rw [if_neg hp] at hm'
        rw [if_neg (fun hc : pageBase base = p => hp (hpb_base ▸ hc))]
        exact hwf.full p m hm'
    · intro p q hp hq
      have hp' : alistLookup ((base, BREAKPOINTS_PER_PAGE - 1) :: s.pages) p =
        some BREAKPOINTS_PER_PAGE := hp
      simp only [alistLookup_cons] at hp'
      by_cases hpb : base = p
      · rw [if_pos hpb] at hp'
        rw [Option.some.injEq] at hp'
        omega
      · rw [if_neg hpb] at hp'
        have h0 := hwf.counts p _ hp'
        rw [hfe] at h0
        simp only [Finset.filter_empty, Finset.card_empty] at h0
        omega

theorem alist_singleton_keys {V : Type} (m : List (ℕ × V)) (hm : m.length = 1)
    (p q : ℕ) (vp vq : V)
    (hp : alistLookup m p = some vp) (hq : alistLookup m q = some vq) : p = q := by
  cases m with
  | nil => cases hp
  | cons e rest =>
      cases rest with
      | nil =>
          rw [alistLookup_cons] at hp hq
          by_cases hep : e.1 = p
          · by_cases heq : e.1 = q
            · rw [← hep, heq]
            · rw [if_neg heq] at hq
              cases hq
          · rw [if_neg hep] at hp
            cases hp
      | cons f rest' => simp at hm

set_option linter.constructorNameAsVariable false in
/-- One `free_breakpoint` call on an outstanding slot from a
well-formed state succeeds and preserves the invariant with the slot
removed from the outstanding set; a nonempty page table stays
nonempty. -/
theorem free_step (s : BpState) (outs : Finset ℕ) (a : ℕ) (hwf : BpWF s outs)
    (ha : a ∈ outs) :
    ∃ s', free_breakpoint s a = some s' ∧ (s.pages ≠ [] → s'.pages ≠ []) ∧
      BpWF s' (outs.erase a) := by
  have hbpp : BREAKPOINTS_PER_PAGE = 2048 := rfl
  set base := pageBase a with hbase_def
  have hcov := hwf.outsCovered a ha
  cases hl : alistLookup s.pages base with
  | none => rw [← hbase_def, hl] at hcov; cases hcov
  | some n =>
      have hnotfree : a ∉ s.free := hwf.disj a ha
      have hcard : n = (s.free.filter (fun x => pageBase x = base)).card :=
        hwf.counts base n hl
      have hfull := hwf.full base n hl
      have haf : a ∈ outs.filter (fun x => pageBase x = base) :=
        Finset.mem_filter.mpr ⟨ha, hbase_def.symm⟩
      have hcnt1 : 1 ≤ (outs.filter (fun x => pageBase x = base)).card :=
        Finset.card_pos.mpr ⟨a, haf⟩
      have halignb : base % PAGE_SIZE = 0 := hwf.aligned base (by rw [hl]; rfl)
      have hupd_self : alistLookup (alistUpdate s.pages base (n + 1)) base = some (n + 1) :=
        alistLookup_update_self _ _ _ (by rw [hl]; rfl)
      have hupd_nodup : ((alistUpdate s.pages base (n + 1)).map Prod.fst).Nodup := by
        rw [alistUpdate_map_fst]
        exact hwf.nodup
      by_cases hc : n + 1 = BREAKPOINTS_PER_PAGE ∧
          1 < (alistUpdate s.pages base (n + 1)).length
      · -- the page became fully free and is dropped
        have heq := free_breakpoint_drop s a n hl hc
        rw [← hbase_def] at heq
        have hcnt_eq : (outs.filter (fun x => pageBase x = base)).card = 1 := by omega
        have hfsing : outs.filter (fun x => pageBase x = base) = {a} := by
          apply Finset.eq_singleton_iff_unique_mem.mpr
          refine ⟨haf, fun x hx => ?_⟩
          by_contra hne
          have h2 : 2 ≤ (outs.filter (fun x => pageBase x = base)).card :=
            Finset.one_lt_card.mpr ⟨x, hx, a, haf, hne⟩
          omega
        have houts_nb : ∀ x ∈ outs.erase a, pageBase x ≠ base := by
          intro x hx hcb
          have hxo := Finset.mem_of_mem_erase hx
          have hxf : x ∈ outs.filter (fun x => pageBase x = base) :=
            Finset.mem_filter.mpr ⟨hxo, hcb⟩
          rw [hfsing] at hxf
          exact (Finset.ne_of_mem_erase hx) (Finset.mem_singleton.mp hxf)
        -- the dropped slots are exactly the free slots of the page
        have hfoldeq : (List.range BREAKPOINTS_PER_PAGE).foldl
            (fun fs i => fs.erase (base + i * BREAKPOINT_LENGTH)) (insert a s.free) =
            (insert a s.free).filter (fun x => ¬pageBase x = base) := by
          ext x
          rw [mem_foldl_erase, Finset.mem_filter]
          constructor
          · rintro ⟨hmem, hall⟩
            refine ⟨hmem, fun hcb => ?_⟩
            have hev : x % BREAKPOINT_LENGTH = 0 := by
              rcases Finset.mem_insert.mp hmem with rfl | hmf
              · exact hwf.evenOuts x ha
              · exact hwf.evenFree x hmf
            obtain ⟨i, hi, hxi⟩ := slot_decomp halignb hcb hev
            exact hall i (List.mem_range.mpr hi) hxi
          · rintro ⟨hmem, hnb⟩
            refine ⟨hmem, fun i hi hxi => hnb ?_⟩
            rw [hxi]
            exact pageBase_add_of_lt halignb (by
              show i * 2 < 4096
              have h2 : i < 2048 := hbpp ▸ List.mem_range.mp hi
              omega)
        have hlook : ∀ p, p ≠ base →
            alistLookup (alistErase (alistUpdate s.pages base (n + 1)) base) p =
            alistLookup s.pages p := by
          intro p hp
          rw [alistErase_lookup_other _ _ _ hp, alistLookup_update_other _ _ _ _ hp]
        have hlook_base :
            alistLookup (alistErase (alistUpdate s.pages base (n + 1)) base) base = none :=
          alistErase_lookup_self _ _ hupd_nodup
        refine ⟨_, heq, ?_, ?_⟩
        · intro _ hnil
          have hnil' : alistErase (alistUpdate s.pages base (n + 1)) base = [] := hnil
          have hlen : (alistErase (alistUpdate s.pages base (n + 1)) base).length + 1 =
              (alistUpdate s.pages base (n + 1)).length :=
            alistErase_length_of_present _ _ (by rw [hupd_self]; rfl)
          rw [hnil'] at hlen
          have hgt := hc.2
          rw [← hlen] at hgt
          simp at hgt
        constructor
        · intro x hx
          rw [hfoldeq] at hx
          obtain ⟨hmem, hnb⟩ := Finset.mem_filter.mp hx
          show (alistLookup (alistErase (alistUpdate s.pages base (n + 1)) base)
            (pageBase x)).isSome
          rw [hlook _ hnb]
          rcases Finset.mem_insert.mp hmem with rfl | hmf
          · exact absurd hbase_def.symm hnb
          · exact hwf.freeCovered x hmf
        · intro p m hm
          have hm' : alistLookup (alistErase (alistUpdate s.pages base (n + 1)) base) p =
            some m := hm
          by_cases hpb : p = base
          · rw [hpb, hlook_base] at hm'
            cases hm'
          · rw [hlook _ hpb] at hm'
            have h0 := hwf.counts p m hm'
            rw [hfoldeq]
            have hset : ((insert a s.free).filter (fun y => ¬pageBase y = base)).filter
                (fun x => pageBase x = p) = s.free.filter (fun x => pageBase x = p) := by
              ext x
              simp only [Finset.mem_filter, Finset.mem_insert]
              constructor
              · rintro ⟨⟨rfl | hmf, hnb⟩, hpp⟩
                · exact absurd hbase_def.symm hnb
                · exact ⟨hmf, hpp⟩
              · rintro ⟨hmf, hpp⟩
                exact ⟨⟨Or.inr hmf, fun hcb => hpb (hpp.symm.trans hcb)⟩, hpp⟩
            rw [hset]
            exact h0
        · intro x hx
          have hxo := Finset.mem_of_mem_erase hx
          have hxa := Finset.ne_of_mem_erase hx
          intro hcf
          rw [hfoldeq] at hcf
          rcases Finset.mem_insert.mp (Finset.mem_filter.mp hcf).1 with rfl | hmf
          · exact hxa rfl
          · exact hwf.disj x hxo hmf
        · intro x hx
          show (alistLookup (alistErase (alistUpdate s.pages base (n + 1)) base)
            (pageBase x)).isSome
          rw [hlook _ (houts_nb x hx)]
          exact hwf.outsCovered x (Finset.mem_of_mem_erase hx)
        · intro x hx
          rw [hfoldeq] at hx
          rcases Finset.mem_insert.mp (Finset.mem_filter.mp hx).1 with rfl | hmf
          · exact hwf.evenOuts x ha
          · exact hwf.evenFree x hmf
        · intro x hx
          exact hwf.evenOuts x (Finset.mem_of_mem_erase hx)
        · intro p hp
          have hp' : (alistLookup (alistErase (alistUpdate s.pages base (n + 1)) base)
            p).isSome := hp
          by_cases hpb : p = base
          · rw [hpb, hlook_base] at hp'
            cases hp'
          · rw [hlook _ hpb] at hp'
            exact hwf.aligned p hp'
        · show ((alistErase (alistUpdate s.pages base (n + 1)) base).map Prod.fst).Nodup
          exact List.Nodup.sublist
            (List.Sublist.map Prod.fst (alistErase_sublist _ _)) hupd_nodup
        · intro p m hm
          have hm' : alistLookup (alistErase (alistUpdate s.pages base (n + 1)) base) p =
            some m := hm
          by_cases hpb : p = base
          · rw [hpb, hlook_base] at hm'
            cases hm'
          · rw [hlook _ hpb] at hm'
            have h0 := hwf.full p m hm'
            show m + ((outs.erase a).filter (fun x => pageBase x = p)).card =
              BREAKPOINTS_PER_PAGE
            rw [Finset.filter_erase,
              Finset.erase_eq_of_not_mem (fun hcx =>
                hpb (((Finset.mem_filter.mp hcx).2).symm.trans hbase_def.symm))]
            exact h0
        · intro p q hp hq
          have hp' : alistLookup (alistErase (alistUpdate s.pages base (n + 1)) base) p =
            some BREAKPOINTS_PER_PAGE := hp
          have hq' : alistLookup (alistErase (alistUpdate s.pages base (n + 1)) base) q =
            some BREAKPOINTS_PER_PAGE := hq
          by_cases hpb : p = base
          · rw [hpb, hlook_base] at hp'
            cases hp'
          · by_cases hqb : q = base
            · rw [hqb, hlook_base] at hq'
              cases hq'
            · rw [hlook _ hpb] at hp'
              rw [hlook _ hqb] at hq'
              exact hwf.oneFull p q hp' hq'
      · -- the page is kept
        have heq := free_breakpoint_keep s a n hl hc
        rw [← hbase_def] at heq
        refine ⟨_, heq, ?_, ?_⟩
        · intro hne hnil
          have hnil' : alistUpdate s.pages base (n + 1) = [] := hnil
          cases hp : s.pages with
          | nil => rw [hp] at hl; cases hl
          | cons e r =>
              rw [hp, alistUpdate_cons] at hnil'
              cases hnil'
        constructor
        · intro x hx
          show (alistLookup (alistUpdate s.pages base (n + 1)) (pageBase x)).isSome
          rw [alistLookup_update_isSome]
          rcases Finset.mem_insert.mp hx with rfl | hmf
          · rw [← hbase_def, hl]
            rfl
          · exact hwf.freeCovered x hmf
        · intro p m hm
          have hm' : alistLookup (alistUpdate s.pages base (n + 1)) p = some m := hm
          show m = ((insert a s.free).filter (fun x => pageBase x = p)).card
          rw [Finset.filter_insert]
          by_cases hpb : p = base
          · subst hpb
            rw [hupd_self] at hm'
            rw [Option.some.injEq] at hm'
            rw [if_pos hbase_def.symm,
              Finset.card_insert_of_not_mem (fun hcx => hnotfree (Finset.mem_filter.mp hcx).1),
              ← hcard, ← hm']
          · rw [alistLookup_update_other _ _ _ _ hpb] at hm'
            rw [if_neg (fun hcb : pageBase a = p => hpb (hcb ▸ hbase_def))]
            exact hwf.counts p m hm'
        · intro x hx
          have hxo := Finset.mem_of_mem_erase hx
          have hxa := Finset.ne_of_mem_erase hx
          intro hcf
          rcases Finset.mem_insert.mp hcf with rfl | hmf
          · exact hxa rfl
          · exact hwf.disj x hxo hmf
        · intro x hx
          show (alistLookup (alistUpdate s.pages base (n + 1)) (pageBase x)).isSome
          rw [alistLookup_update_isSome]
          exact hwf.outsCovered x (Finset.mem_of_mem_erase hx)
        · intro x hx
          rcases Finset.mem_insert.mp hx with rfl | hmf
          · exact hwf.evenOuts x ha
          · exact hwf.evenFree x hmf
        · intro x hx
          exact hwf.evenOuts x (Finset.mem_of_mem_erase hx)
        · intro p hp
          have hp' : (alistLookup (alistUpdate s.pages base (n + 1)) p).isSome := hp
          rw [alistLookup_update_isSome] at hp'
          exact hwf.aligned p hp'
        · exact hupd_nodup
        · intro p m hm
          have hm' : alistLookup (alistUpdate s.pages base (n + 1)) p = some m := hm
          show m + ((outs.erase a).filter (fun x => pageBase x = p)).card =
            BREAKPOINTS_PER_PAGE
          rw [Finset.filter_erase]
          by_cases hpb : p = base
          · subst hpb
            rw [hupd_self] at hm'
            rw [Option.some.injEq] at hm'
            rw [Finset.card_erase_of_mem haf]
            omega
          · rw [alistLookup_update_other _ _ _ _ hpb] at hm'
            rw [Finset.erase_eq_of_not_mem (fun hcx =>
              hpb (((Finset.mem_filter.mp hcx).2).symm.trans hbase_def.symm))]
            exact hwf.full p m hm'
        · intro p q hp hq
          have hp' : alistLookup (alistUpdate s.pages base (n + 1)) p =
            some BREAKPOINTS_PER_PAGE := hp
          have hq' : alistLookup (alistUpdate s.pages base (n + 1)) q =
            some BREAKPOINTS_PER_PAGE := hq
          by_cases hcfull : n + 1 = BREAKPOINTS_PER_PAGE
          · -- the updated page is full, so it is the only page
            have hlen : (alistUpdate s.pages base (n + 1)).length = 1 := by
              have hpos : s.pages ≠ [] := by
                intro hnil
                rw [hnil] at hl
                cases hl
              have hl1 : 1 ≤ (alistUpdate s.pages base (n + 1)).length := by
                rw [alistUpdate_length]
                cases hps : s.pages with
                | nil => exact absurd hps hpos
                | cons e r => simp
              have hl2 : ¬1 < (alistUpdate s.pages base (n + 1)).length :=
                fun hgt => hc ⟨hcfull, hgt⟩
              omega
            exact alist_singleton_keys _ hlen p q _ _ hp' hq'
          · have hpb : p ≠ base := by
              intro hcb
              subst hcb
              rw [hupd_self] at hp'
              rw [Option.some.injEq] at hp'
              exact hcfull hp'
            have hqb : q ≠ base := by
              intro hcb
              subst hcb
              rw [hupd_self] at hq'
              rw [Option.some.injEq] at hq'
              exact hcfull hq'
            rw [alistLookup_update_other _ _ _ _ hpb] at hp'
            rw [alistLookup_update_other _ _ _ _ hqb] at hq'
            exact hwf.oneFull p q hp' hq'

/-- Any valid call sequence runs to completion from a well-formed
state and preserves the invariant; the page table, once nonempty,
stays nonempty, and is nonempty as soon as the trace allocates. -/
theorem runBp_wf (sup : ℕ → ℕ) : ∀ (ops : List BpOp) (s : BpState) (outs : Finset ℕ),
    BpWF s outs → validOps sup ops s outs = true →
    ∃ s' outs', runBp sup ops s outs = some (s', outs') ∧ BpWF s' outs' ∧
      (s.pages ≠ [] → s'.pages ≠ []) ∧ (hasAlloc ops = true → s'.pages ≠ []) := by
  intro ops
  induction ops with
  | nil =>
      intro s outs hwf _
      exact ⟨s, outs, rfl, hwf, fun h => h, by intro h; cases h⟩
  | cons op rest ih =>
      intro s outs hwf hv
      cases op with
      | alloc =>
          simp only [validOps] at hv
          rw [Bool.and_eq_true] at hv
          obtain ⟨hv1, hv2⟩ := hv
          have hfresh : ¬s.free.Nonempty →
              sup s.frames % PAGE_SIZE = 0 ∧ alistLookup s.pages (sup s.frames) = none := by
            intro hne
            rw [Bool.or_eq_true] at hv1
            rcases hv1 with h1 | h1
            · exact absurd (of_decide_eq_true h1) hne
            · rw [Bool.and_eq_true] at h1
              exact ⟨of_decide_eq_true h1.1, of_decide_eq_true h1.2⟩
          obtain ⟨a, s1, heq, _, hpagesne, hwf1⟩ := alloc_step sup s outs hwf hfresh
          rw [heq] at hv2
          obtain ⟨s', outs', hrun, hwf', hne', _⟩ :=
            ih s1 (insert a outs) hwf1 hv2
          refine ⟨s', outs', ?_, hwf', fun _ => hne' hpagesne, fun _ => hne' hpagesne⟩
          simp only [runBp, heq]
          exact hrun
      | free a =>
          simp only [validOps] at hv
          rw [Bool.and_eq_true] at hv
          obtain ⟨hv1, hv2⟩ := hv
          have hmem : a ∈ outs := of_decide_eq_true hv1
          obtain ⟨s1, heq, hpne, hwf1⟩ := free_step s outs a hwf hmem
          rw [heq] at hv2
          obtain ⟨s', outs', hrun, hwf', hne', hha'⟩ :=
            ih s1 (outs.erase a) hwf1 hv2
          refine ⟨s', outs', ?_, hwf', fun hs => hne' (hpne hs), ?_⟩
          · simp only [runBp, heq]
            exact hrun
          · intro hha
            exact hha' hha

/-! ### C3 — the allocator invariant. -/

/-- A frame supply handing out page `(n + 1) · PAGE_SIZE` as the
`n`-th fresh frame. -/
def sup4 : ℕ → ℕ := fun n => (n + 1) * PAGE_SIZE

/-- A small trace: allocate one slot (the fresh page base `4096`),
then free it. -/
def w3ops : List BpOp := [.alloc, .free 4096]

/-- C3: after any finite sequence of `alloc_breakpoint` and
`free_breakpoint` calls (each free passing an outstanding slot, and
the external frame allocator handing out aligned, unrecorded pages —
checked by `validOps`), every free-set address lies on a recorded
page, each recorded page's `nr_free` equals the number of free-set
addresses on that page, at least one page is retained once the trace
has allocated, and exactly one page is retained when additionally
every slot is free (no slot outstanding). -/
theorem c3_allocator_invariants (sup : ℕ → ℕ) (ops : List BpOp)
    (hv : validOps sup ops bpEmpty ∅ = true) :
    ∃ s outs, runBp sup ops bpEmpty ∅ = some (s, outs) ∧
      (∀ a ∈ s.free, (alistLookup s.pages (pageBase a)).isSome) ∧
      (∀ p n, alistLookup s.pages p = some n →
        n = (s.free.filter (fun x => pageBase x = p)).card) ∧
      (hasAlloc ops = true → s.pages ≠ []) ∧
      (outs = ∅ → hasAlloc ops = true → s.pages.length = 1) := by
  obtain ⟨s, outs, hrun, hwf, _, hha⟩ := runBp_wf sup ops bpEmpty ∅ bpWF_empty hv
  refine ⟨s, outs, hrun, hwf.freeCovered, hwf.counts, hha, ?_⟩
  intro houts hallocs
  have hfull : ∀ e ∈ s.pages, e.2 = BREAKPOINTS_PER_PAGE := by
    intro e he
    have hl : alistLookup s.pages e.1 = some e.2 :=
      alistLookup_of_mem_nodup hwf.nodup he
    have h0 := hwf.full e.1 e.2 hl
    rw [houts] at h0
    simp only [Finset.filter_empty, Finset.card_empty] at h0
    omega
  cases hp : s.pages with
  | nil => exact absurd hp (hha hallocs)
  | cons e r =>
      cases hr : r with
      | nil => simp
      | cons f r' =>
          have hnd := hwf.nodup
          rw [hp, hr, List.map_cons, List.map_cons, List.nodup_cons] at hnd
          have hne : e.1 ≠ f.1 := by
            intro hc
            exact hnd.1 (by rw [hc]; exact List.mem_cons_self _ _)
          have hle : alistLookup s.pages e.1 = some BREAKPOINTS_PER_PAGE := by
            have hme : e ∈ s.pages := by rw [hp]; exact List.mem_cons_self _ _
            have := alistLookup_of_mem_nodup hwf.nodup hme
            rw [hfull e hme] at this
            exact this
          have hlf : alistLookup s.pages f.1 = some BREAKPOINTS_PER_PAGE := by
            have hmf : f ∈ s.pages := by
              rw [hp, hr]
              exact List.mem_cons_of_mem e (List.mem_cons_self _ _)
            have := alistLookup_of_mem_nodup hwf.nodup hmf
            rw [hfull f hmf] at this
            exact this
          exact absurd (hwf.oneFull e.1 f.1 hle hlf) hne

/-- Witness for C3: the two-call trace `w3ops` (one alloc of slot
`4096`, one free of it) is valid under `sup4` and the conclusion holds
for it. -/
theorem c3_allocator_invariants_witness :
    validOps sup4 w3ops bpEmpty ∅ = true ∧
    (∃ s outs, runBp sup4 w3ops bpEmpty ∅ = some (s, outs) ∧
      (∀ a ∈ s.free, (alistLookup s.pages (pageBase a)).isSome) ∧
      (∀ p n, alistLookup s.pages p = some n →
        n = (s.free.filter (fun x => pageBase x = p)).card) ∧
      (hasAlloc w3ops = true → s.pages ≠ []) ∧
      (outs = ∅ → hasAlloc w3ops = true → s.pages.length = 1)) :=
  ⟨by decide, c3_allocator_invariants sup4 w3ops (by decide)⟩

/-! ### C4 — the alloc-2048 / free-all scenario.

The trace: 2048 `alloc_breakpoint` calls (which hand out the page base
`4096 = c4f 0` and then the slots `c4f 1, …, c4f 2047` in ascending
order, since `pop_first` takes the least free address), followed by
`free_breakpoint` of every returned slot in descending order. -/

/-- The `i`-th slot of the single page at `4096`. -/
def c4f (i : ℕ) : ℕ := 4096 + i * BREAKPOINT_LENGTH

theorem c4f_injective : Function.Injective c4f := slot_injective 4096

/-- The memory after the page pre-fill. -/
def c4mem : ℕ → ℕ := ebreakWrite (fun _ => 0) 4096 (PAGE_SIZE / BREAKPOINT_LENGTH)

/-- The allocator state with slots `c4f k, …, c4f 2047` free and
`c4f 0, …, c4f (k-1)` outstanding (reached after the first `k` allocs,
and again — walking backwards — during the frees). -/
def c4sA (k : ℕ) : BpState :=
  { free := (Finset.Ico k BREAKPOINTS_PER_PAGE).image c4f,
    pages := [(4096, BREAKPOINTS_PER_PAGE - k)],
    frames := 1,
    mem := c4mem }

/-- The outstanding slots `c4f 0, …, c4f (k-1)`. -/
def c4outsA (k : ℕ) : Finset ℕ := (Finset.range k).image c4f

/-- Free the slots `c4f (m-1), …, c4f 0`, in that (descending)
order. -/
def c4frees : ℕ → List BpOp
  | 0 => []
  | m + 1 => .free (c4f m) :: c4frees m

/-- The whole C4 trace: 2048 allocs then the 2048 frees. -/
def c4ops : List BpOp :=
  List.replicate BREAKPOINTS_PER_PAGE BpOp.alloc ++ c4frees BREAKPOINTS_PER_PAGE

theorem c4_pageBase (i : ℕ) (hi : i < BREAKPOINTS_PER_PAGE) : pageBase (c4f i) = 4096 :=
  pageBase_add_of_lt (by decide) (by
    show i * 2 < 4096
    have h2 : i < 2048 := hi
    omega)

theorem c4_erase_image (k : ℕ) :
    ((Finset.Ico k BREAKPOINTS_PER_PAGE).image c4f).erase (c4f k) =
      (Finset.Ico (k + 1) BREAKPOINTS_PER_PAGE).image c4f := by
  ext x
  simp only [Finset.mem_erase, Finset.mem_image, Finset.mem_Ico]
  constructor
  · rintro ⟨hx, i, hi, rfl⟩
    have hik : i ≠ k := fun hc => hx (by rw [hc])
    exact ⟨i, ⟨by omega, hi.2⟩, rfl⟩
  · rintro ⟨i, hi, rfl⟩
    refine ⟨fun hc => ?_, i, ⟨by omega, hi.2⟩, rfl⟩
    have := c4f_injective hc
    omega

theorem c4_insert_image (m : ℕ) (hm : m < BREAKPOINTS_PER_PAGE) :
    insert (c4f m) ((Finset.Ico (m + 1) BREAKPOINTS_PER_PAGE).image c4f) =
      (Finset.Ico m BREAKPOINTS_PER_PAGE).image c4f := by
  ext x
  simp only [Finset.mem_insert, Finset.mem_image, Finset.mem_Ico]
  constructor
  · rintro (rfl | ⟨i, hi, rfl⟩)
    · exact ⟨m, ⟨le_refl m, hm⟩, rfl⟩
    · exact ⟨i, ⟨by omega, hi.2⟩, rfl⟩
  · rintro ⟨i, hi, rfl⟩
    by_cases him : i = m
    · exact Or.inl (by rw [him])
    · exact Or.inr ⟨i, ⟨by omega, hi.2⟩, rfl⟩

theorem c4_outs_insert (k : ℕ) : insert (c4f k) (c4outsA k) = c4outsA (k + 1) := by
  rw [c4outsA, c4outsA, Finset.range_succ, Finset.image_insert]

theorem c4_outs_mem (m : ℕ) : c4f m ∈ c4outsA (m + 1) := by
  rw [c4outsA]
  exact Finset.mem_image.mpr ⟨m, Finset.mem_range.mpr (by omega), rfl⟩

theorem c4_outs_erase (m : ℕ) : (c4outsA (m + 1)).erase (c4f m) = c4outsA m := by
  rw [c4outsA, c4outsA, Finset.range_succ, Finset.image_insert,
    Finset.erase_insert]
  intro hc
  obtain ⟨i, hi, hieq⟩ := Finset.mem_image.mp hc
  have := c4f_injective hieq
  rw [Finset.mem_range] at hi
  omega

theorem freshFree_eq_of_empty (base : ℕ) (fs : Finset ℕ) (hfs : fs = ∅) :
    (List.range' 1 (BREAKPOINTS_PER_PAGE - 1)).foldl
      (fun acc i => insert (base + i * BREAKPOINT_LENGTH) acc) fs =
    (Finset.Ico 1 BREAKPOINTS_PER_PAGE).image (fun i => base + i * BREAKPOINT_LENGTH) := by
  rw [hfs]
  exact freshFree_eq base

/-- The first allocation: `pop_first` finds nothing, a fresh page at
`4096` is mapped and pre-filled, slot `0` (the page base) is returned
and slots `1, …, 2047` enter the free set. -/
theorem c4_alloc0 : alloc_breakpoint sup4 bpEmpty = some (4096, c4sA 1) := by
  have h := alloc_breakpoint_fresh sup4 bpEmpty (by simp [bpEmpty])
  rw [freshFree_eq_of_empty (sup4 bpEmpty.frames) bpEmpty.free rfl] at h
  exact h

/-- Allocations `2, …, 2048`: `pop_first` returns the least free slot
`c4f k` and decrements the page's `nr_free`. -/
theorem c4_stepA (k : ℕ) (h2 : k < BREAKPOINTS_PER_PAGE) :
    alloc_breakpoint sup4 (c4sA k) = some (c4f k, c4sA (k + 1)) := by
  have hmem : c4f k ∈ (c4sA k).free :=
    Finset.mem_image.mpr ⟨k, Finset.mem_Ico.mpr ⟨le_refl k, h2⟩, rfl⟩
  have hne : (c4sA k).free.Nonempty := ⟨c4f k, hmem⟩
  have hmin : (c4sA k).free.min' hne = c4f k := by
    apply le_antisymm
    · exact Finset.min'_le _ _ hmem
    · apply Finset.le_min'
      intro y hy
      obtain ⟨i, hi, rfl⟩ := Finset.mem_image.mp hy
      rw [Finset.mem_Ico] at hi
      show 4096 + k * 2 ≤ 4096 + i * 2
      have := hi.1
      omega
  have hpb : pageBase (c4f k) = 4096 := c4_pageBase k h2
  have hl : alistLookup (c4sA k).pages (pageBase ((c4sA k).free.min' hne)) =
      some (BREAKPOINTS_PER_PAGE - k) := by
    rw [hmin, hpb]
    rfl
  have h := alloc_breakpoint_pop sup4 (c4sA k) hne (BREAKPOINTS_PER_PAGE - k) hl
  rw [hmin, hpb] at h
  rw [show (c4sA k).free = (Finset.Ico k BREAKPOINTS_PER_PAGE).image c4f from rfl] at h
  rw [c4_erase_image k] at h
  rw [show (c4sA k).pages = [(4096, BREAKPOINTS_PER_PAGE - k)] from rfl] at h
  rw [show alistUpdate [((4096 : ℕ), BREAKPOINTS_PER_PAGE - k)] 4096
      (BREAKPOINTS_PER_PAGE - k - 1) = [((4096 : ℕ), BREAKPOINTS_PER_PAGE - (k + 1))] from rfl] at h
  exact h

/-- One free of the descending phase: freeing `c4f m` into the state
with `m + 1` outstanding slots re-inserts it and bumps `nr_free`; the
page is never returned since it is the only one (the keep-one rule). -/
theorem c4_stepB (m : ℕ) (hm : m < BREAKPOINTS_PER_PAGE) :
    free_breakpoint (c4sA (m + 1)) (c4f m) = some (c4sA m) := by
  have hpb : pageBase (c4f m) = 4096 := c4_pageBase m hm
  have hl : alistLookup (c4sA (m + 1)).pages (pageBase (c4f m)) =
      some (BREAKPOINTS_PER_PAGE - (m + 1)) := by
    rw [hpb]
    rfl
  have hc : ¬(BREAKPOINTS_PER_PAGE - (m + 1) + 1 = BREAKPOINTS_PER_PAGE ∧
      1 < (alistUpdate (c4sA (m + 1)).pages (pageBase (c4f m))
            (BREAKPOINTS_PER_PAGE - (m + 1) + 1)).length) := by
    rintro ⟨-, hlen⟩
    rw [hpb] at hlen
    have h1 : (alistUpdate (c4sA (m + 1)).pages 4096
        (BREAKPOINTS_PER_PAGE - (m + 1) + 1)).length = 1 := rfl
    omega
  have h := free_breakpoint_keep (c4sA (m + 1)) (c4f m) (BREAKPOINTS_PER_PAGE - (m + 1)) hl hc
  rw [hpb] at h
  rw [show (c4sA (m + 1)).free = (Finset.Ico (m + 1) BREAKPOINTS_PER_PAGE).image c4f from rfl] at h
  rw [c4_insert_image m hm] at h
  rw [show (c4sA (m + 1)).pages = [(4096, BREAKPOINTS_PER_PAGE - (m + 1))] from rfl] at h
  have harith : BREAKPOINTS_PER_PAGE - (m + 1) + 1 = BREAKPOINTS_PER_PAGE - m := by
    have hb : BREAKPOINTS_PER_PAGE = 2048 := rfl
    omega
  rw [harith] at h
  rw [show alistUpdate [((4096 : ℕ), BREAKPOINTS_PER_PAGE - (m + 1))] 4096
      (BREAKPOINTS_PER_PAGE - m) = [((4096 : ℕ), BREAKPOINTS_PER_PAGE - m)] from rfl] at h
  exact h

/-- Running `m` further allocations from the state with `k` slots
handed out (`k + m = 2048`) reaches the all-outstanding state; every
step is valid. -/
theorem c4_runA : ∀ (m k : ℕ) (rest : List BpOp), k + m = BREAKPOINTS_PER_PAGE →
    (runBp sup4 (List.replicate m BpOp.alloc ++ rest) (c4sA k) (c4outsA k) =
      runBp sup4 rest (c4sA BREAKPOINTS_PER_PAGE) (c4outsA BREAKPOINTS_PER_PAGE)) ∧
    (validOps sup4 (List.replicate m BpOp.alloc ++ rest) (c4sA k) (c4outsA k) =
      validOps sup4 rest (c4sA BREAKPOINTS_PER_PAGE) (c4outsA BREAKPOINTS_PER_PAGE)) := by
  intro m
  induction m with
  | zero =>
      intro k rest h2
      have hk : k = BREAKPOINTS_PER_PAGE := by omega
      subst hk
      exact ⟨rfl, rfl⟩
  | succ m ih =>
      intro k rest h2
      have hb : BREAKPOINTS_PER_PAGE = 2048 := rfl
      have hk2 : k < BREAKPOINTS_PER_PAGE := by omega
      have hstep := c4_stepA k hk2
      have hmem : c4f k ∈ (c4sA k).free :=
        Finset.mem_image.mpr ⟨k, Finset.mem_Ico.mpr ⟨le_refl k, hk2⟩, rfl⟩
      have hrepl : List.replicate (m + 1) BpOp.alloc ++ rest =
          BpOp.alloc :: (List.replicate m BpOp.alloc ++ rest) := rfl
      rw [hrepl]
      constructor
      · simp only [runBp, hstep]
        rw [c4_outs_insert k]
        exact (ih (k + 1) rest (by omega)).1
      · simp only [validOps, hstep]
        rw [decide_eq_true ⟨c4f k, hmem⟩, Bool.true_or, Bool.true_and]
        rw [c4_outs_insert k]
        exact (ih (k + 1) rest (by omega)).2

/-- Running the descending frees from the state with `m` slots
outstanding returns every slot to the single retained page; every
step is valid (each freed address is outstanding). -/
theorem c4_runB : ∀ (m : ℕ), m ≤ BREAKPOINTS_PER_PAGE →
    (runBp sup4 (c4frees m) (c4sA m) (c4outsA m) = some (c4sA 0, c4outsA 0)) ∧
    (validOps sup4 (c4frees m) (c4sA m) (c4outsA m) = true) := by
  intro m
  induction m with
  | zero => exact fun _ => ⟨rfl, rfl⟩
  | succ m ih =>
      intro hm
      have hmlt : m < BREAKPOINTS_PER_PAGE := by
        have hb : BREAKPOINTS_PER_PAGE = 2048 := rfl
        omega
      have hstep := c4_stepB m hmlt
      constructor
      · show runBp sup4 (BpOp.free (c4f m) :: c4frees m) (c4sA (m + 1)) (c4outsA (m + 1)) = _
        simp only [runBp, hstep]
        rw [c4_outs_erase m]
        exact (ih (by omega)).1
      · show validOps sup4 (BpOp.free (c4f m) :: c4frees m) (c4sA (m + 1)) (c4outsA (m + 1)) = true
        simp only [validOps, hstep]
        rw [decide_eq_true (c4_outs_mem m), Bool.true_and]
        rw [c4_outs_erase m]
        exact (ih (by omega)).2

theorem runBp_cons_alloc (sup : ℕ → ℕ) (a : ℕ) (s s' : BpState) (outs : Finset ℕ)
    (rest : List BpOp) (h : alloc_breakpoint sup s = some (a, s')) :
    runBp sup (BpOp.alloc :: rest) s outs = runBp sup rest s' (insert a outs) := by
  simp only [runBp, h]

theorem validOps_cons_alloc (sup : ℕ → ℕ) (a : ℕ) (s s' : BpState) (outs : Finset ℕ)
    (rest : List BpOp) (h : alloc_breakpoint sup s = some (a, s'))
    (hc : (decide s.free.Nonempty ||
      (decide (sup s.frames % PAGE_SIZE = 0) &&
        decide (alistLookup s.pages (sup s.frames) = none))) = true) :
    validOps sup (BpOp.alloc :: rest) s outs = validOps sup rest s' (insert a outs) := by
  simp only [validOps, h, hc, Bool.true_and]

/-- The whole C4 trace runs to completion: the final state has every
one of the 2048 slots free on the one retained page, and each step was
valid (every free targets an outstanding slot). -/
theorem c4_main :
    runBp sup4 c4ops bpEmpty ∅ = some (c4sA 0, c4outsA 0) ∧
    validOps sup4 c4ops bpEmpty ∅ = true := by
  have hsplit : c4ops = BpOp.alloc ::
      (List.replicate (BREAKPOINTS_PER_PAGE - 1) BpOp.alloc ++
        c4frees BREAKPOINTS_PER_PAGE) := rfl
  have houts : insert (4096 : ℕ) (∅ : Finset ℕ) = c4outsA 1 := by
    rw [c4outsA]
    ext x
    simp only [Finset.mem_insert, Finset.not_mem_empty, or_false, Finset.mem_image,
      Finset.mem_range]
    constructor
    · rintro rfl
      exact ⟨0, by omega, rfl⟩
    · rintro ⟨i, hi, rfl⟩
      have hi0 : i = 0 := by omega
      subst hi0
      rfl
  have ha0 := c4_alloc0
  have hmid : (1 : ℕ) + (BREAKPOINTS_PER_PAGE - 1) = BREAKPOINTS_PER_PAGE := rfl
  constructor
  · rw [hsplit]
    rw [runBp_cons_alloc sup4 4096 bpEmpty (c4sA 1) ∅ _ ha0]
    rw [houts]
    rw [(c4_runA (BREAKPOINTS_PER_PAGE - 1) 1 (c4frees BREAKPOINTS_PER_PAGE) hmid).1]
    exact (c4_runB BREAKPOINTS_PER_PAGE (le_refl _)).1
  · rw [hsplit]
    rw [validOps_cons_alloc sup4 4096 bpEmpty (c4sA 1) ∅ _ ha0 (by decide)]
    rw [houts]
    rw [(c4_runA (BREAKPOINTS_PER_PAGE - 1) 1 (c4frees BREAKPOINTS_PER_PAGE) hmid).2]
    exact (c4_runB BREAKPOINTS_PER_PAGE (le_refl _)).2

theorem c4_card0 : ((Finset.Ico 0 BREAKPOINTS_PER_PAGE).image c4f).card = 2048 := by
  rw [Finset.card_image_of_injective _ c4f_injective, Nat.card_Ico]
  rfl

/-- C4 (amended): from the empty allocator with `BREAKPOINT_LENGTH = 2` and
`PAGE_SIZE = 4096`, 2048 `alloc_breakpoint` calls followed by
`free_breakpoint` of every returned slot — a valid trace: each free
targets a slot returned by an alloc and not yet freed — leave the free
set containing exactly 2048 addresses (not 2047: the returned page base
`4096` is a slot like any other, and freeing it re-inserts it) on
exactly one retained page. -/
theorem c4_free_all_slots :
    ∃ s outs, runBp sup4 c4ops bpEmpty ∅ = some (s, outs) ∧
      validOps sup4 c4ops bpEmpty ∅ = true ∧
      s.free.card = 2048 ∧ s.pages.length = 1 := by
  refine ⟨c4sA 0, c4outsA 0, c4_main.1, c4_main.2, ?_, rfl⟩
  show ((Finset.Ico 0 BREAKPOINTS_PER_PAGE).image c4f).card = 2048
  exact c4_card0

/-- C4 counterexample: on the very trace the claim describes (2048 allocs
then frees of every returned slot, all steps valid), the final free-set
cardinality is not the claimed 2047. -/
theorem c4_free_all_not_2047 :
    ∃ s outs, runBp sup4 c4ops bpEmpty ∅ = some (s, outs) ∧
      validOps sup4 c4ops bpEmpty ∅ = true ∧ s.free.card ≠ 2047 := by
  refine ⟨c4sA 0, c4outsA 0, c4_main.1, c4_main.2, ?_⟩
  intro hc
  rw [show (c4sA 0).free = (Finset.Ico 0 BREAKPOINTS_PER_PAGE).image c4f from rfl,
    c4_card0] at hc
  omega

end RCore
